import Mathlib

/-!
Docker JSON / CRI log decoder (`filebeat/harvester/reader/docker_json.go`).

A shallow embedding of the reader `DockerJSON`, its two format parsers
`parseCRILog` and `parseDockerJSONLog`, and its `Next` loop, followed by the
properties of the decoder that are proved about it.

Go strings and byte slices are lists of bytes.  The two standard-library
calls whose grammar is not part of this repository, `time.Parse(time.RFC3339, ·)`
and `json.Decoder.Decode`, are parameters of the development (`Lib`), and the
results hold for every such library.  A small concrete library (`sampleLib`)
is provided to evaluate the model on concrete records.

The underlying line reader is represented by the list of outcomes that its
successive `Next` calls produce; the loop of `Next` is then a recursion on
that list, and a result `none` means that the known outcomes ran out before
the call returned.
-/

set_option autoImplicit false

namespace DockerJSONReader

/-! ## Bytes and strings -/

/-- A Go `byte`. -/
abbrev Byte := Fin 256

/-- A Go `string` or `[]byte`: a sequence of bytes. -/
abbrev GoString := List Byte

/-- The bytes of an ASCII literal. -/
def ascii (s : String) : GoString := s.data.map (fun c => Fin.ofNat c.toNat)

/-- The space character, the separator of a CRI line. -/
def SP : Byte := 32

/-- The newline character `'\n'`. -/
def NL : Byte := 10

/-- The backslash character `'\\'`. -/
def BSL : Byte := 92

/-- The opening brace `'{'`. -/
def LBRACE : Byte := 123

/-- Go `strings.Index(s, sep)` for a one-byte separator: the offset of the
first occurrence, or `none` where Go returns `-1`. -/
def indexByte (sep : Byte) : GoString → Option Nat
  | [] => none
  | c :: cs => if c = sep then some 0 else (indexByte sep cs).map (· + 1)

/-- Go `strings.SplitN(s, sep, n)` for a one-byte separator and `n ≥ 0`:
at most `n` substrings, the last one being the unsplit remainder. -/
def splitN (sep : Byte) : Nat → GoString → List GoString
  | 0, _ => []
  | 1, s => [s]
  | n + 2, s =>
    match indexByte sep s with
    | none => [s]
    | some m => s.take m :: splitN sep (n + 1) (s.drop (m + 1))

/-- Go `strings.HasPrefix(s, "{")`. -/
def hasPrefixBrace : GoString → Bool
  | [] => false
  | c :: _ => decide (c = LBRACE)

/-- Go indexing `s[i]` on an index that is in range. -/
def byteAt (s : GoString) (i : Nat) : Byte := s.getD i 0

/-! ## Data model -/

/-- An error value of the standard library (its message). -/
abbrev LibError := String

/-- The errors that `Next` can return. -/
inductive Error where
  /-- an error returned by the underlying reader (end of stream, I/O) -/
  | upstream (e : String)
  /-- `errors.New("invalid CRI log")` -/
  | invalidCRI
  /-- `errors.Wrap(err, "parsing CRI timestamp")` -/
  | parsingCRITimestamp (cause : LibError)
  /-- `errors.Wrap(err, "decoding docker JSON")` -/
  | decodingDockerJSON (cause : LibError)
  /-- `errors.Wrap(err, "parsing docker timestamp")` -/
  | parsingDockerTimestamp (cause : LibError)
  deriving DecidableEq

/-- A value stored in a `common.MapStr`: the strings this reader writes, and
any other value a record may already carry. -/
inductive Value where
  | str (s : GoString)
  | other (code : Nat)
  deriving DecidableEq

/-- The type `common.MapStr`, a map from strings to values, kept as an
association list with at most one entry per key written by `put`. -/
abbrev MapStr := List (GoString × Value)

/-- Map lookup `m[k]`. -/
def MapStr.get? (m : MapStr) (k : GoString) : Option Value :=
  (m.find? (fun e => decide (e.1 = k))).map (·.2)

/-- Map assignment `m[k] = v`. -/
def MapStr.put (m : MapStr) (k : GoString) (v : Value) : MapStr :=
  (k, v) :: m.filter (fun e => !decide (e.1 = k))

/-- The method `MapStr.Update`: copies every pair of `other` into `m`,
overwriting existing keys. -/
def MapStr.Update (m other : MapStr) : MapStr :=
  other.foldl (fun acc e => acc.put e.1 e.2) m

/-- Modelled from the spec: the type `Message` of the reader package, which
is declared outside the files at hand.  It carries the content bytes, the
timestamp, the fields, and the position metadata of the raw record. -/
structure Message (Time : Type) where
  Ts : Time
  Content : GoString
  Bytes : Nat
  Fields : MapStr
  deriving DecidableEq

/-- Modelled from the spec: the method `Message.AddFields`, declared outside
the files at hand: the message's fields are extended with the given pairs. -/
def Message.AddFields {Time : Type} (m : Message Time) (fields : MapStr) : Message Time :=
  { m with Fields := m.Fields.Update fields }

/-- The struct `dockerLog`: the three string fields of a Docker JSON line. -/
structure dockerLog where
  Timestamp : GoString := []
  Log : GoString := []
  Stream : GoString := []
  deriving DecidableEq

/-- The struct `crioLog`. -/
structure crioLog (Time : Type) where
  Timestamp : Time
  Stream : GoString
  Log : GoString
  deriving DecidableEq

/-- The standard-library calls made by the parsers. -/
structure Lib (Time : Type) where
  /-- the zero value of `time.Time` -/
  zeroTime : Time
  /-- the call `time.Parse(time.RFC3339, s)` -/
  timeParse : GoString → Except LibError Time
  /-- the call `json.NewDecoder(bytes.NewReader(content)).Decode(&msg)` on a
  non-nil `msg`: the struct that `msg` points to afterwards, and the error.
  (On the JSON value `null` the Go decoder sets the pointer itself to nil; such
  a content does not start with an opening brace and is never handed to the
  Docker JSON parser by `Next`.) -/
  jsonDecode : GoString → dockerLog → dockerLog × Option LibError

/-- What a parser hands back: the three return values, and the struct behind
the pointer argument `msg` as the call leaves it. -/
structure Parsed (Time L : Type) where
  message : Message Time
  isPartial : Bool
  err : Option Error
  line : L

/-! ## The parsers -/

section Parsers

variable {Time : Type}

/-- The function `parseCRILog`: parses logs in CRI log format. -/
def parseCRILog (lib : Lib Time) (message : Message Time) (msg : crioLog Time) :
    Parsed Time (crioLog Time) :=
  let log := splitN SP 3 message.Content
  if log.length < 3 then
    ⟨message, false, some Error.invalidCRI, msg⟩
  else
    match lib.timeParse (log.getD 0 []) with
    | Except.error e => ⟨message, false, some (Error.parsingCRITimestamp e), msg⟩
    | Except.ok ts =>
      let msg : crioLog Time := { Timestamp := ts, Stream := log.getD 1 [], Log := log.getD 2 [] }
      let message := message.AddFields [(ascii "stream", Value.str msg.Stream)]
      let message := { message with Content := msg.Log }
      let message := { message with Ts := ts }
      ⟨message, false, none, msg⟩

/-- The function `parseDockerJSONLog`: parses logs in Docker JSON log format. -/
def parseDockerJSONLog (lib : Lib Time) (message : Message Time) (msg : dockerLog) :
    Parsed Time dockerLog :=
  match lib.jsonDecode message.Content msg with
  | (msg, some e) => ⟨message, false, some (Error.decodingDockerJSON e), msg⟩
  | (msg, none) =>
    match lib.timeParse msg.Timestamp with
    | Except.error e => ⟨message, false, some (Error.parsingDockerTimestamp e), msg⟩
    | Except.ok ts =>
      let message := message.AddFields [(ascii "stream", Value.str msg.Stream)]
      let message := { message with Content := msg.Log }
      let message := { message with Ts := ts }
      let isPartial := decide (msg.Log.length > 2) &&
        (decide (byteAt msg.Log (msg.Log.length - 1) ≠ NL) ||
          decide (byteAt msg.Log (msg.Log.length - 2) = BSL))
      ⟨message, isPartial, none, msg⟩

end Parsers

/-! ## The reader `DockerJSON` -/

section Reader

variable {Time : Type}

/-- One result of the underlying reader's `Next`: the message, and the error
when it is not nil. -/
abbrev Outcome (Time : Type) := Message Time × Option String

/-- The struct `DockerJSON`.  The underlying `reader` is represented by the
outcomes its successive `Next` calls produce from now on, as far as they are
known. -/
structure DockerJSON (Time : Type) where
  reader : List (Outcome Time)
  /-- stream filter, `all`, `stderr` or `stdout` -/
  stream : GoString
  /-- option for concat partial docker logs -/
  concatPartial : Bool
  deriving DecidableEq

/-- The function `NewDockerJSON`. -/
def NewDockerJSON (r : List (Outcome Time)) (stream : GoString) (concatPartial : Bool) :
    DockerJSON Time :=
  { stream := stream, reader := r, concatPartial := concatPartial }

/-- The local variables of one iteration of the loop of `Next` once the
record has been parsed. -/
structure Sniffed (Time : Type) where
  message : Message Time
  isPartial : Bool
  err : Option Error
  dockerLine : dockerLog
  crioLine : crioLog Time

/-- The parsing step of the loop body of `Next`: the record is handed to the
Docker JSON parser when its content starts with an opening brace, and to the
CRI parser otherwise; the line struct of the other format keeps its zero
value. -/
def sniff (lib : Lib Time) (message : Message Time) : Sniffed Time :=
  let dockerLine : dockerLog := {}
  let crioLine : crioLog Time := { Timestamp := lib.zeroTime, Stream := [], Log := [] }
  if hasPrefixBrace message.Content then
    let r := parseDockerJSONLog lib message dockerLine
    ⟨r.message, r.isPartial, r.err, r.line, crioLine⟩
  else
    let r := parseCRILog lib message crioLine
    ⟨r.message, r.isPartial, r.err, dockerLine, r.line⟩

/-- The condition of the stream-filter step of `Next`, under which the loop
goes on to the next record. -/
def filteredOut (stream : GoString) (s : Sniffed Time) : Bool :=
  decide (stream ≠ ascii "all") && decide (stream ≠ s.dockerLine.Stream) &&
    decide (stream ≠ s.crioLine.Stream)

/-- The loop of `Next`, from a given value of the local `partialContent` and
the outcomes the reader will produce.  The result is `none` when the known
outcomes run out before the loop returns. -/
def nextLoop (lib : Lib Time) (stream : GoString) (concatPartial : Bool) :
    GoString → List (Outcome Time) →
      Option ((Message Time × Option Error) × List (Outcome Time))
  | _, [] => none
  | _, (message, some e) :: rest => some ((message, some (Error.upstream e)), rest)
  | partialContent, (message, none) :: rest =>
    let s := sniff lib message
    if filteredOut stream s then
      nextLoop lib stream concatPartial partialContent rest
    else if concatPartial && s.isPartial then
      nextLoop lib stream concatPartial (partialContent ++ s.message.Content) rest
    else if concatPartial && decide (partialContent.length > 0) then
      some (({ s.message with Content := partialContent ++ s.message.Content }, s.err), rest)
    else
      some ((s.message, s.err), rest)

/-- The method `Next`: returns the next line, and the reader as the call
leaves it. -/
def DockerJSON.Next (lib : Lib Time) (p : DockerJSON Time) :
    Option ((Message Time × Option Error) × DockerJSON Time) :=
  (nextLoop lib p.stream p.concatPartial [] p.reader).map
    (fun r => (r.1, { p with reader := r.2 }))

/-- A caller that keeps calling `Next`, at most `n` times, and stops after
the first call that returns an error: the results in the order returned, and
the reader as the last call leaves it. -/
def readUntilError (lib : Lib Time) :
    Nat → DockerJSON Time → List (Message Time × Option Error) × DockerJSON Time
  | 0, p => ([], p)
  | n + 1, p =>
    match p.Next lib with
    | none => ([], p)
    | some ((m, some e), q) => ([(m, some e)], q)
    | some ((m, none), q) =>
      let r := readUntilError lib n q
      ((m, none) :: r.1, r.2)

/-- A caller that calls `Next` exactly `n` times: the results in the order
returned (`none` when the known outcomes run out first). -/
def nextTimes (lib : Lib Time) :
    Nat → DockerJSON Time → Option (List (Message Time × Option Error) × DockerJSON Time)
  | 0, p => some ([], p)
  | n + 1, p =>
    match p.Next lib with
    | none => none
    | some (r, q) => (nextTimes lib n q).map (fun t => (r :: t.1, t.2))

end Reader

/-! ## A concrete library, for evaluating the model -/

/-- A parsed RFC3339 timestamp. -/
structure SampleTime where
  year : Nat
  month : Nat
  day : Nat
  hour : Nat
  minute : Nat
  second : Nat
  nanos : Nat
  offsetMinutes : Int
  deriving DecidableEq

/-- Reads exactly `k` decimal digits. -/
def readNum : Nat → Nat → GoString → Option (Nat × GoString)
  | 0, acc, s => some (acc, s)
  | _ + 1, _, [] => none
  | k + 1, acc, c :: s =>
    if 48 ≤ c.val ∧ c.val ≤ 57 then readNum k (acc * 10 + (c.val - 48)) s else none

/-- Reads one given byte. -/
def expectByte (b : Byte) : GoString → Option GoString
  | [] => none
  | c :: s => if c = b then some s else none

/-- Reads a run of decimal digits: the digits read and the rest. -/
def readDigits : GoString → List Nat × GoString
  | [] => ([], [])
  | c :: s =>
    if 48 ≤ c.val ∧ c.val ≤ 57 then
      let r := readDigits s
      ((c.val - 48) :: r.1, r.2)
    else ([], c :: s)

/-- The nanoseconds given by the digits of a fraction of a second. -/
def fracNanos (ds : List Nat) : Nat :=
  ((ds ++ List.replicate 9 0).take 9).foldl (fun a d => a * 10 + d) 0

/-- Reads the `HH:MM` of a zone offset, which ends the input: the minutes. -/
def readOffset (s : GoString) : Option Nat :=
  (readNum 2 0 s).bind fun h =>
  (expectByte 58 h.2).bind fun t =>
  (readNum 2 0 t).bind fun m =>
  if m.2 = [] ∧ h.1 < 24 ∧ m.1 < 60 then some (h.1 * 60 + m.1) else none

/-- Reads the zone of an RFC3339 timestamp, which ends the input. -/
def readZone : GoString → Option Int
  | [] => none
  | c :: s =>
    if c = 90 then (if s = [] then some 0 else none)
    else if c = 43 then (readOffset s).map (fun n => (n : Int))
    else if c = 45 then (readOffset s).map (fun n => -(n : Int))
    else none

/-- Reads exactly `k` decimal digits and then the byte `sep`. -/
def readField (k : Nat) (sep : Byte) (s : GoString) : Option (Nat × GoString) :=
  (readNum k 0 s).bind (fun r => (expectByte sep r.2).map (fun t => (r.1, t)))

/-- Reads the optional fraction of a second: the nanoseconds and the rest. -/
def readFraction : GoString → Option (Nat × GoString)
  | [] => some (0, [])
  | c :: t =>
    if c = 46 then
      (if (readDigits t).1 = [] then none else some (fracNanos (readDigits t).1, (readDigits t).2))
    else some (0, c :: t)

/-- The range checks on the fields of a timestamp. -/
def SampleTime.inRange (t : SampleTime) : Bool :=
  decide (1 ≤ t.month ∧ t.month ≤ 12 ∧ 1 ≤ t.day ∧ t.day ≤ 31 ∧ t.hour < 24 ∧
    t.minute < 60 ∧ t.second < 60)

/-- A recogniser of the RFC3339 date-time form
`YYYY-MM-DDTHH:MM:SS[.fraction](Z|±HH:MM)`. -/
def rfc3339? (s : GoString) : Option SampleTime :=
  (readField 4 45 s).bind fun year =>
  (readField 2 45 year.2).bind fun month =>
  (readField 2 84 month.2).bind fun day =>
  (readField 2 58 day.2).bind fun hour =>
  (readField 2 58 hour.2).bind fun minute =>
  (readNum 2 0 minute.2).bind fun second =>
  (readFraction second.2).bind fun nanos =>
  (readZone nanos.2).bind fun off =>
  let t : SampleTime := ⟨year.1, month.1, day.1, hour.1, minute.1, second.1, nanos.1, off⟩
  if t.inRange then some t else none

/-- A stand-in for `time.Parse(time.RFC3339, s)`, used to evaluate the model
on the sample records only: it does not check the day against the length of
the month, and takes a point only before the fraction of a second. -/
def sampleTimeParse (s : GoString) : Except LibError SampleTime :=
  match rfc3339? s with
  | some t => Except.ok t
  | none => Except.error "parsing time: cannot parse as RFC3339"

/-- A JSON value as far as the sample decoder tells values apart. -/
inductive JVal where
  | str (s : GoString)
  | null
  | scalar
  deriving DecidableEq

/-- Skips JSON white space. -/
def skipWS : GoString → GoString
  | [] => []
  | c :: s => if c = 32 ∨ c = 9 ∨ c = 10 ∨ c = 13 then skipWS s else c :: s

/-- The byte denoted by a one-letter escape of a JSON string. -/
def unescape (e : Byte) : Option Byte :=
  if e = 34 then some 34 else if e = 92 then some 92 else if e = 47 then some 47
  else if e = 98 then some 8 else if e = 102 then some 12 else if e = 110 then some 10
  else if e = 114 then some 13 else if e = 116 then some 9 else none

/-- Reads a JSON string after its opening quote, `escaped` telling whether
the previous byte was an unpaired backslash: the decoded bytes and the rest
of the input after the closing quote. -/
def readString : Bool → GoString → Option (GoString × GoString)
  | _, [] => none
  | true, e :: s =>
    match unescape e with
    | some b => (readString false s).map (fun r => (b :: r.1, r.2))
    | none => none
  | false, c :: s =>
    if c = 34 then some ([], s)
    else if c = 92 then readString true s
    else if c.val < 32 then none
    else (readString false s).map (fun r => (c :: r.1, r.2))

/-- Reads the bytes of a bare scalar (a number or a literal name). -/
def readBare : GoString → GoString × GoString
  | [] => ([], [])
  | c :: s =>
    if (48 ≤ c.val ∧ c.val ≤ 57) ∨ (97 ≤ c.val ∧ c.val ≤ 122) ∨ c = 45 ∨ c = 46 then
      let r := readBare s
      (c :: r.1, r.2)
    else ([], c :: s)

/-- Reads a JSON value that is a string, a literal name or a plain number. -/
def readValue : GoString → Option (JVal × GoString)
  | [] => none
  | c :: s =>
    if c = 34 then (readString false s).map (fun r => (JVal.str r.1, r.2))
    else
      let r := readBare (c :: s)
      if r.1 = ascii "null" then some (JVal.null, r.2)
      else if r.1 = ascii "true" ∨ r.1 = ascii "false" then some (JVal.scalar, r.2)
      else
        let ds := readDigits (match r.1 with | 45 :: t => t | t => t)
        let fs := match ds.2 with
          | 46 :: t => (readDigits t)
          | t => ([0], t)
        if ds.1 ≠ [] ∧ fs.1 ≠ [] ∧ fs.2 = [] then some (JVal.scalar, r.2) else none

/-- Reads one member `"key": value` of a JSON object: the pair and the rest. -/
def readMember (s : GoString) : Option ((GoString × JVal) × GoString) :=
  (expectByte 34 (skipWS s)).bind fun t =>
  (readString false t).bind fun k =>
  (expectByte 58 (skipWS k.2)).bind fun u =>
  (readValue (skipWS u)).map fun v => ((k.1, v.1), v.2)

/-- Reads the members of a JSON object after its opening brace, up to its
closing brace; what follows the object is not looked at. -/
def readMembers : Nat → GoString → Option (List (GoString × JVal))
  | 0, _ => none
  | fuel + 1, s =>
    match readMember s with
    | none => none
    | some (kv, rest) =>
      match skipWS rest with
      | c :: t =>
        if c = 125 then some [kv]
        else if c = 44 then (readMembers fuel t).map (fun ms => kv :: ms)
        else none
      | [] => none

/-- Reads a JSON object of strings, literal names and plain numbers. -/
def readObject (s : GoString) : Option (List (GoString × JVal)) :=
  match skipWS s with
  | c :: t =>
    if c = 123 then
      (match skipWS t with
       | d :: u => if d = 125 then some [] else readMembers (d :: u).length (d :: u)
       | [] => none)
    else none
  | [] => none

/-- ASCII lower case. -/
def lower (s : GoString) : GoString :=
  s.map (fun c => if 65 ≤ c.val ∧ c.val ≤ 90 then c + 32 else c)

/-- Stores one member of the object into the struct: the key selects the
field whatever the case of its ASCII letters (the Go decoder folds case over
all of Unicode), a string is stored, `null` changes nothing, another value is
a type error, of which the first one is kept, and an unknown key is
skipped. -/
def assignMember (acc : dockerLog × Option LibError) (m : GoString × JVal) :
    dockerLog × Option LibError :=
  let known := lower m.1 = ascii "time" ∨ lower m.1 = ascii "log" ∨ lower m.1 = ascii "stream"
  match m.2 with
  | JVal.str v =>
    if lower m.1 = ascii "time" then ({ acc.1 with Timestamp := v }, acc.2)
    else if lower m.1 = ascii "log" then ({ acc.1 with Log := v }, acc.2)
    else if lower m.1 = ascii "stream" then ({ acc.1 with Stream := v }, acc.2)
    else acc
  | JVal.null => acc
  | JVal.scalar =>
    if known then
      (acc.1, acc.2.orElse (fun _ => some "json: cannot unmarshal into Go struct field of type string"))
    else acc

/-- A stand-in for `json.NewDecoder(bytes.NewReader(content)).Decode(&msg)`,
used to evaluate the model on the sample records only.  It reads flat objects
of strings, literal names and plain numbers, and takes anything else (an
escape `\u`, an exponent, a nested value) for a syntax error, which the Go
decoder does not.  On what it reads it does as the Go decoder does for a
struct of string fields: a syntax error leaves the struct as it was, a key
that is absent leaves its field as it was and is no error, and what follows
the object is not read. -/
def sampleJsonDecode (content : GoString) (msg : dockerLog) : dockerLog × Option LibError :=
  match readObject content with
  | none => (msg, some "invalid character in JSON input")
  | some ms => ms.foldl assignMember (msg, none)

/-- The sample library. -/
def sampleLib : Lib SampleTime :=
  { zeroTime := ⟨1, 1, 1, 0, 0, 0, 0, 0⟩
    timeParse := sampleTimeParse
    jsonDecode := sampleJsonDecode }

/-- A raw record as the line reader hands it over: the content, a
reader-assigned time, the number of bytes read, and no fields. -/
def rawRecord (content : GoString) : Message SampleTime :=
  { Ts := sampleLib.zeroTime, Content := content, Bytes := content.length, Fields := [] }

/-! ## Notions used in the statements -/

section Notions

variable {Time : Type}

/-- A reader outcome that is a raw record, without error. -/
def record (m : Message Time) : Outcome Time := (m, none)

/-- Whether the loop of `Next` goes on to the next outcome after this one:
the outcome is a record, and the record is discarded by the stream filter or,
with `concatPartial`, flagged partial and appended to `partialContent`. -/
def absorbed (lib : Lib Time) (stream : GoString) (concatPartial : Bool)
    (o : Outcome Time) : Bool :=
  match o.2 with
  | some _ => false
  | none => filteredOut stream (sniff lib o.1) || (concatPartial && (sniff lib o.1).isPartial)

/-- The value of `partialContent` after the loop went past the given
records, appending the content of each one the stream filter lets through. -/
def accumulated (lib : Lib Time) (stream : GoString) :
    GoString → List (Outcome Time) → GoString
  | acc, [] => acc
  | acc, o :: os =>
    accumulated lib stream
      (if filteredOut stream (sniff lib o.1) then acc
        else acc ++ (sniff lib o.1).message.Content) os

/-- The message returned for a record that ends the call: the parsed message,
its content preceded, with `concatPartial`, by the accumulated content. -/
def finished (lib : Lib Time) (concatPartial : Bool) (acc : GoString) (m : Message Time) :
    Message Time × Option Error :=
  ({ (sniff lib m).message with
      Content := (if concatPartial then acc else []) ++ (sniff lib m).message.Content },
    (sniff lib m).err)

/-- The result of the parser selected by the first byte of the record: the
Docker JSON parser when the content starts with an opening brace, the CRI
parser otherwise, also on an empty content. -/
def parseSelected (lib : Lib Time) (r : Message Time) : Message Time × Option Error :=
  if r.Content.head? = some LBRACE then
    ((parseDockerJSONLog lib r {}).message, (parseDockerJSONLog lib r {}).err)
  else
    ((parseCRILog lib r { Timestamp := lib.zeroTime, Stream := [], Log := [] }).message,
      (parseCRILog lib r { Timestamp := lib.zeroTime, Stream := [], Log := [] }).err)

/-- The payload of a record: the decoded log of a Docker JSON line, the
third field of a CRI line. -/
def payloadOf (lib : Lib Time) (r : Message Time) : GoString :=
  if r.Content.head? = some LBRACE then (lib.jsonDecode r.Content {}).1.Log
  else (splitN SP 3 r.Content).getD 2 []

/-- White space in the wording "whitespace-delimited fields": space and tab. -/
def isSpaceOrTab (b : Byte) : Bool := decide (b = 32) || decide (b = 9)

/-- The fields of a line from a given point on, `cur` being the bytes of the
field under way. -/
def wsFieldsFrom : GoString → GoString → List GoString
  | cur, [] => if cur = [] then [] else [cur]
  | cur, c :: s =>
    if isSpaceOrTab c then
      (if cur = [] then wsFieldsFrom [] s else cur :: wsFieldsFrom [] s)
    else wsFieldsFrom (cur ++ [c]) s

/-- The whitespace-delimited fields of a line: its maximal runs of bytes
that are not white space. -/
def wsFields (s : GoString) : List GoString := wsFieldsFrom [] s

/-- The reader outcomes without the records that the stream filter
discards. -/
def dropFiltered (lib : Lib Time) (stream : GoString) (outs : List (Outcome Time)) :
    List (Outcome Time) :=
  outs.filter (fun o => !(o.2.isNone && filteredOut stream (sniff lib o.1)))

/-- The stream tag of a record as parsed: the value of the stream field of
the message that the selected parser returns. -/
def parsedTag (lib : Lib Time) (r : Message Time) : Option Value :=
  (parseSelected lib r).1.Fields.get? (ascii "stream")

/-- The decoder as the specification describes its state: the filter, the
reassembly option, and an accumulator that belongs to the instance. -/
structure StreamDecoder (Time : Type) where
  reader : List (Outcome Time)
  outputFilter : GoString
  concatenatePartial : Bool
  accumulator : GoString
  deriving DecidableEq

/-- The loop of the operation `Next` of the specification, on an accumulator
that is part of the state: an upstream outcome is propagated at once; a
record that the filter does not select is discarded; a record flagged partial
is appended to the accumulator when reassembly is enabled; on any other
record a non-empty accumulator is put in front of the content.  The
accumulator is cleared whenever the operation returns.  The result holds
the returned pair, the accumulator and the outcomes left. -/
def specLoop (lib : Lib Time) (outputFilter : GoString) (concatenatePartial : Bool) :
    GoString → List (Outcome Time) →
      Option ((Message Time × Option Error) × GoString × List (Outcome Time))
  | _, [] => none
  | _, (message, some e) :: rest => some ((message, some (Error.upstream e)), [], rest)
  | accumulator, (message, none) :: rest =>
    if outputFilter ≠ ascii "all" ∧ outputFilter ≠ (sniff lib message).dockerLine.Stream ∧
        outputFilter ≠ (sniff lib message).crioLine.Stream then
      specLoop lib outputFilter concatenatePartial accumulator rest
    else if concatenatePartial = true ∧ (sniff lib message).isPartial = true then
      specLoop lib outputFilter concatenatePartial
        (accumulator ++ (sniff lib message).message.Content) rest
    else if accumulator ≠ [] then
      some (({ (sniff lib message).message with
          Content := accumulator ++ (sniff lib message).message.Content },
        (sniff lib message).err), [], rest)
    else some (((sniff lib message).message, (sniff lib message).err), [], rest)

/-- The operation `Next` of the specification. -/
def StreamDecoder.Next (lib : Lib Time) (d : StreamDecoder Time) :
    Option ((Message Time × Option Error) × StreamDecoder Time) :=
  (specLoop lib d.outputFilter d.concatenatePartial d.accumulator d.reader).map
    (fun r => (r.1, { d with reader := r.2.2, accumulator := r.2.1 }))

/-- The operation `Next` of the specification called `n` times: the results
in the order returned. -/
def specTimes (lib : Lib Time) :
    Nat → StreamDecoder Time →
      Option (List (Message Time × Option Error) × StreamDecoder Time)
  | 0, d => some ([], d)
  | n + 1, d =>
    match d.Next lib with
    | none => none
    | some (r, q) => (specTimes lib n q).map (fun t => (r :: t.1, t.2))

end Notions

/-! ## Sample records -/

/-- A line whose three fields are separated by tabs. -/
def recTabs : Message SampleTime :=
  rawRecord (ascii "2017-09-12T22:32:21.212861448Z\tstdout\thello")

/-- A line with two spaces between its two fields. -/
def recTwoSpaces : Message SampleTime :=
  rawRecord (ascii "2017-09-12T22:32:21.212861448Z  hello")

/-- A Docker JSON line without the field `time`. -/
def recNoTime : Message SampleTime :=
  rawRecord (ascii "\x7b\"log\":\"abc\\n\",\"stream\":\"stdout\"\x7d")

/-- A Docker JSON line without the field `log`. -/
def recNoLog : Message SampleTime :=
  rawRecord (ascii "\x7b\"stream\":\"stdout\",\"time\":\"2017-09-12T22:32:21.212861448Z\"\x7d")

/-- A Docker JSON line whose field `log` is a number. -/
def recNumberLog : Message SampleTime :=
  rawRecord (ascii
    "\x7b\"stream\":\"stdout\",\"log\":5,\"time\":\"2017-09-12T22:32:21.212861448Z\"\x7d")

/-- A line that starts with an opening brace and is not JSON. -/
def recBadJson : Message SampleTime :=
  rawRecord (ascii "\x7bnot json")

/-- A Docker JSON line whose log is `abc` followed by a newline. -/
def recAbcNL : Message SampleTime :=
  rawRecord (ascii
    "\x7b\"log\":\"abc\\n\",\"stream\":\"stdout\",\"time\":\"2017-09-12T22:32:21.212861448Z\"\x7d")

/-- A Docker JSON line whose log is the two bytes `ab`, without a newline. -/
def recAb : Message SampleTime :=
  rawRecord (ascii
    "\x7b\"log\":\"ab\",\"stream\":\"stdout\",\"time\":\"2017-09-12T22:32:21.212861448Z\"\x7d")

/-- A Docker JSON line whose log is the single byte `a`, without a newline. -/
def recA : Message SampleTime :=
  rawRecord (ascii
    "\x7b\"log\":\"a\",\"stream\":\"stdout\",\"time\":\"2017-09-12T22:32:21.212861448Z\"\x7d")

/-- A Docker JSON line whose log is empty. -/
def recEmptyLog : Message SampleTime :=
  rawRecord (ascii
    "\x7b\"log\":\"\",\"stream\":\"stdout\",\"time\":\"2017-09-12T22:32:21.212861448Z\"\x7d")

/-- A Docker JSON line whose log is the three bytes `abc`, without a newline. -/
def recAbc : Message SampleTime :=
  rawRecord (ascii
    "\x7b\"log\":\"abc\",\"stream\":\"stdout\",\"time\":\"2017-09-12T22:32:21.212861448Z\"\x7d")

/-- The CRI line `2017-09-12T22:32:21.212861448Z stdout hello world`. -/
def recHelloWorld : Message SampleTime :=
  rawRecord (ascii "2017-09-12T22:32:21.212861448Z stdout hello world")

/-- The zero value of `crioLog` for the sample library. -/
def crioZero : crioLog SampleTime :=
  { Timestamp := sampleLib.zeroTime, Stream := [], Log := [] }

/-- A Docker JSON line with the stream `stderr`. -/
def recStderr : Message SampleTime :=
  rawRecord (ascii
    "\x7b\"log\":\"oops\\n\",\"stream\":\"stderr\",\"time\":\"2017-09-12T22:32:21.212861448Z\"\x7d")

/-- A Docker JSON line whose time is not a timestamp. -/
def recBadTime : Message SampleTime :=
  rawRecord (ascii "\x7b\"log\":\"abc\\n\",\"stream\":\"stdout\",\"time\":\"yesterday\"\x7d")

/-! ## Properties of the Docker JSON parser -/

section DockerParser

variable {Time : Type}

/-- The byte at the last index is the last element of a non-empty string. -/
theorem getLast?_eq_byteAt (l : GoString) (h : 0 < l.length) :
    l.getLast? = some (byteAt l (l.length - 1)) := by
  have h1 : l.length - 1 < l.length := by omega
  simp [byteAt, List.getLast?_eq_getElem?, List.getElem?_eq_getElem h1]

/-- The byte at the last index but one is the last element of the string
without its last byte. -/
theorem getLast?_dropLast_eq_byteAt (l : GoString) (h : 1 < l.length) :
    l.dropLast.getLast? = some (byteAt l (l.length - 2)) := by
  have h1 : l.length - 2 < l.length := by omega
  have h2 : l.length - 1 - 1 = l.length - 2 := by omega
  have h3 : l.length - 2 < l.length - 1 := by omega
  simp [byteAt, List.getLast?_eq_getElem?, List.getElem?_dropLast, h2, h3,
    List.getElem?_eq_getElem h1]

/-- The value of the flag computed on the last line of `parseDockerJSONLog`,
in terms of the ends of the decoded log. -/
theorem isPartial_flag_iff (log : GoString) :
    (decide (log.length > 2) &&
      (decide (byteAt log (log.length - 1) ≠ NL) ||
        decide (byteAt log (log.length - 2) = BSL))) = true ↔
    2 < log.length ∧ (log.getLast? ≠ some NL ∨ log.dropLast.getLast? = some BSL) := by
  by_cases h : 2 < log.length
  · rw [getLast?_eq_byteAt log (by omega), getLast?_dropLast_eq_byteAt log (by omega)]
    simp [h]
  · simp [h]

/-- When `parseDockerJSONLog` returns no error, the decoder returned none,
the time parsed, and the flag is the one computed from the decoded log. -/
theorem parseDockerJSONLog_ok (lib : Lib Time) (message : Message Time) (msg : dockerLog)
    (h : (parseDockerJSONLog lib message msg).err = none) :
    (lib.jsonDecode message.Content msg).2 = none ∧
    (∃ ts, lib.timeParse (lib.jsonDecode message.Content msg).1.Timestamp = Except.ok ts ∧
      (parseDockerJSONLog lib message msg).message =
        { Ts := ts, Content := (lib.jsonDecode message.Content msg).1.Log,
          Bytes := message.Bytes,
          Fields := message.Fields.put (ascii "stream")
            (Value.str (lib.jsonDecode message.Content msg).1.Stream) }) ∧
    (parseDockerJSONLog lib message msg).line = (lib.jsonDecode message.Content msg).1 ∧
    (parseDockerJSONLog lib message msg).isPartial =
      (decide ((lib.jsonDecode message.Content msg).1.Log.length > 2) &&
        (decide (byteAt (lib.jsonDecode message.Content msg).1.Log
            ((lib.jsonDecode message.Content msg).1.Log.length - 1) ≠ NL) ||
          decide (byteAt (lib.jsonDecode message.Content msg).1.Log
            ((lib.jsonDecode message.Content msg).1.Log.length - 2) = BSL))) := by
  unfold parseDockerJSONLog at h ⊢
  rcases hd : lib.jsonDecode message.Content msg with ⟨d, _ | e⟩
  · rw [hd] at h
    simp only at h ⊢
    cases ht : lib.timeParse d.Timestamp with
    | error e => rw [ht] at h; simp at h
    | ok ts =>
      simp [Message.AddFields, MapStr.Update]
  · rw [hd] at h; simp at h

/-- C1: whenever `parseDockerJSONLog` returns no error, the returned flag
`isPartial` is true exactly when the decoded log is longer than two bytes and
either its last byte is not a newline or its last byte but one is a backslash;
in particular a decoded log that ends in a newline not preceded by a backslash
is not flagged. -/
theorem parseDockerJSONLog_isPartial_iff (lib : Lib Time) (message : Message Time)
    (msg : dockerLog) (h : (parseDockerJSONLog lib message msg).err = none) :
    ((parseDockerJSONLog lib message msg).isPartial = true ↔
      2 < (lib.jsonDecode message.Content msg).1.Log.length ∧
        ((lib.jsonDecode message.Content msg).1.Log.getLast? ≠ some NL ∨
          (lib.jsonDecode message.Content msg).1.Log.dropLast.getLast? = some BSL)) ∧
    ((lib.jsonDecode message.Content msg).1.Log.getLast? = some NL →
      (lib.jsonDecode message.Content msg).1.Log.dropLast.getLast? ≠ some BSL →
      (parseDockerJSONLog lib message msg).isPartial = false) := by
  have hp := (parseDockerJSONLog_ok lib message msg h).2.2.2
  have hiff := isPartial_flag_iff (lib.jsonDecode message.Content msg).1.Log
  rw [← hp] at hiff
  refine ⟨hiff, ?_⟩
  intro hnl hbs
  cases hflag : (parseDockerJSONLog lib message msg).isPartial with
  | false => rfl
  | true =>
    rcases (hiff.mp hflag).2 with h1 | h1
    · exact absurd hnl h1
    · exact absurd h1 hbs

/-- C1 at the line `{"log":"abc\n","stream":"stdout","time":…}`: the
parser returns no error and the flag is characterised as stated. -/
theorem parseDockerJSONLog_isPartial_iff_witness :
    (parseDockerJSONLog sampleLib recAbcNL {}).err = none ∧
    (((parseDockerJSONLog sampleLib recAbcNL {}).isPartial = true ↔
      2 < (sampleLib.jsonDecode recAbcNL.Content {}).1.Log.length ∧
        ((sampleLib.jsonDecode recAbcNL.Content {}).1.Log.getLast? ≠ some NL ∨
          (sampleLib.jsonDecode recAbcNL.Content {}).1.Log.dropLast.getLast? = some BSL)) ∧
    ((sampleLib.jsonDecode recAbcNL.Content {}).1.Log.getLast? = some NL →
      (sampleLib.jsonDecode recAbcNL.Content {}).1.Log.dropLast.getLast? ≠ some BSL →
      (parseDockerJSONLog sampleLib recAbcNL {}).isPartial = false)) :=
  ⟨by decide, parseDockerJSONLog_isPartial_iff sampleLib recAbcNL {} (by decide)⟩

/-- C2 fails as stated: the line `{"log":"ab","stream":"stdout","time":…}`
parses without error, its decoded log `ab` does not end in a newline, and the
flag `isPartial` is false; the same holds for the one-byte log `a` and for the
empty log. -/
theorem parseDockerJSONLog_short_log_not_partial :
    ((parseDockerJSONLog sampleLib recAb {}).err = none ∧
      (sampleLib.jsonDecode recAb.Content {}).1.Log = ascii "ab" ∧
      (sampleLib.jsonDecode recAb.Content {}).1.Log.getLast? ≠ some NL ∧
      (parseDockerJSONLog sampleLib recAb {}).isPartial = false) ∧
    ((parseDockerJSONLog sampleLib recA {}).err = none ∧
      (sampleLib.jsonDecode recA.Content {}).1.Log = ascii "a" ∧
      (sampleLib.jsonDecode recA.Content {}).1.Log.getLast? ≠ some NL ∧
      (parseDockerJSONLog sampleLib recA {}).isPartial = false) ∧
    ((parseDockerJSONLog sampleLib recEmptyLog {}).err = none ∧
      (sampleLib.jsonDecode recEmptyLog.Content {}).1.Log = [] ∧
      (sampleLib.jsonDecode recEmptyLog.Content {}).1.Log.getLast? ≠ some NL ∧
      (parseDockerJSONLog sampleLib recEmptyLog {}).isPartial = false) := by
  decide

/-- C2, amended: whenever `parseDockerJSONLog` returns no error and the
decoded log is longer than two bytes and does not end in a newline, the
returned flag `isPartial` is true. -/
theorem parseDockerJSONLog_partial_of_no_newline (lib : Lib Time) (message : Message Time)
    (msg : dockerLog) (h : (parseDockerJSONLog lib message msg).err = none)
    (hlen : 2 < (lib.jsonDecode message.Content msg).1.Log.length)
    (hnl : (lib.jsonDecode message.Content msg).1.Log.getLast? ≠ some NL) :
    (parseDockerJSONLog lib message msg).isPartial = true := by
  have hp := (parseDockerJSONLog_ok lib message msg h).2.2.2
  have hiff := isPartial_flag_iff (lib.jsonDecode message.Content msg).1.Log
  rw [← hp] at hiff
  exact hiff.mpr ⟨hlen, Or.inl hnl⟩

/-- C2, amended, at the line `{"log":"abc","stream":"stdout","time":…}`. -/
theorem parseDockerJSONLog_partial_of_no_newline_witness :
    (parseDockerJSONLog sampleLib recAbc {}).err = none ∧
    2 < (sampleLib.jsonDecode recAbc.Content {}).1.Log.length ∧
    (sampleLib.jsonDecode recAbc.Content {}).1.Log.getLast? ≠ some NL ∧
    (parseDockerJSONLog sampleLib recAbc {}).isPartial = true :=
  ⟨by decide, by decide, by decide,
    parseDockerJSONLog_partial_of_no_newline sampleLib recAbc {}
      (by decide) (by decide) (by decide)⟩

end DockerParser

/-! ## Properties of the CRI parser -/

section CRIParser

variable {Time : Type}

/-- The index found in a string that starts with bytes other than the
separator, followed by the separator. -/
theorem indexByte_append (sep : Byte) (a b : GoString) (h : sep ∉ a) :
    indexByte sep (a ++ sep :: b) = some a.length := by
  induction a with
  | nil => simp [indexByte]
  | cons c cs ih =>
    have hc : c ≠ sep := fun e => h (by simp [e])
    have hcs : sep ∉ cs := fun e => h (by simp [e])
    simp [indexByte, hc, ih hcs]

/-- A string without the separator has no index of it. -/
theorem indexByte_eq_none (sep : Byte) (s : GoString) (h : s.count sep = 0) :
    indexByte sep s = none := by
  induction s with
  | nil => rfl
  | cons c cs ih =>
    have hc : c ≠ sep := by
      intro e
      simp [e] at h
    have hcs : cs.count sep = 0 := by
      simpa [List.count_cons, hc] using h
    simp [indexByte, hc, ih hcs]

/-- The index found splits the string around the separator: the bytes before
it do not contain it, and the count of separators goes down by one. -/
theorem indexByte_eq_some (sep : Byte) (s : GoString) (m : Nat)
    (h : indexByte sep s = some m) :
    s = s.take m ++ sep :: s.drop (m + 1) ∧ sep ∉ s.take m ∧
      s.count sep = (s.drop (m + 1)).count sep + 1 := by
  induction s generalizing m with
  | nil => simp [indexByte] at h
  | cons c cs ih =>
    by_cases hc : c = sep
    · simp [indexByte, hc] at h
      subst h
      simp [hc]
    · simp only [indexByte, hc, if_false, Option.map_eq_some'] at h
      obtain ⟨k, hk, rfl⟩ := h
      obtain ⟨h1, h2, h3⟩ := ih k hk
      refine ⟨?_, ?_, ?_⟩
      · simp only [List.take_succ_cons, List.drop_succ_cons, List.cons_append]
        rw [← h1]
      · simp only [List.take_succ_cons, List.mem_cons, not_or]
        exact ⟨fun e => hc e.symm, h2⟩
      · simp only [List.drop_succ_cons]
        rw [List.count_cons, h3]
        simp [hc]

/-- A string with a separator has an index of it. -/
theorem indexByte_isSome (sep : Byte) (s : GoString) (h : 0 < s.count sep) :
    ∃ m, indexByte sep s = some m := by
  cases hi : indexByte sep s with
  | some m => exact ⟨m, rfl⟩
  | none =>
    exfalso
    induction s with
    | nil => simp at h
    | cons c cs ih =>
      by_cases hc : c = sep
      · simp [indexByte, hc] at hi
      · simp only [indexByte, hc, if_false, Option.map_eq_none'] at hi
        have : 0 < cs.count sep := by simpa [List.count_cons, hc] using h
        exact ih this hi

/-- The number of substrings returned by `splitN`: one more than the number
of separators, up to the limit `n`. -/
theorem length_splitN (sep : Byte) (n : Nat) (s : GoString) :
    (splitN sep n s).length = min n (s.count sep + 1) := by
  induction n generalizing s with
  | zero => simp [splitN]
  | succ n ih =>
    cases n with
    | zero => simp [splitN]
    | succ n =>
      by_cases hz : s.count sep = 0
      · simp [splitN, indexByte_eq_none sep s hz, hz]
      · obtain ⟨m, hm⟩ := indexByte_isSome sep s (Nat.pos_of_ne_zero hz)
        obtain ⟨-, -, h3⟩ := indexByte_eq_some sep s m hm
        simp only [splitN, hm, List.length_cons, ih, h3]
        omega

/-- The three substrings of a line made of two fields without a space and a
payload, separated by single spaces. -/
theorem splitN_three (ts s p : GoString) (hts : SP ∉ ts) (hs : SP ∉ s) :
    splitN SP 3 (ts ++ SP :: (s ++ SP :: p)) = [ts, s, p] := by
  simp [splitN, indexByte_append SP ts _ hts, indexByte_append SP s _ hs]

/-- Looking up a key that has just been assigned. -/
theorem MapStr.get?_put (m : MapStr) (k : GoString) (v : Value) :
    (m.put k v).get? k = some v := by
  simp [MapStr.get?, MapStr.put]

/-- C9: on a content made of a timestamp without a space that parses as
RFC3339, a space, a stream tag without a space, a space and any payload,
`parseCRILog` returns no error, the payload as `Content`, the tag as
`Fields["stream"]` and the parsed time as timestamp. -/
theorem parseCRILog_fields (lib : Lib Time) (message : Message Time) (msg : crioLog Time)
    (ts s p : GoString) (t : Time) (hts : SP ∉ ts) (hs : SP ∉ s)
    (htime : lib.timeParse ts = Except.ok t)
    (hc : message.Content = ts ++ SP :: (s ++ SP :: p)) :
    (parseCRILog lib message msg).err = none ∧
    (parseCRILog lib message msg).message.Content = p ∧
    (parseCRILog lib message msg).message.Fields.get? (ascii "stream") = some (Value.str s) ∧
    (parseCRILog lib message msg).message.Ts = t ∧
    (parseCRILog lib message msg).isPartial = false ∧
    (parseCRILog lib message msg).line = { Timestamp := t, Stream := s, Log := p } := by
  have hsplit := splitN_three ts s p hts hs
  unfold parseCRILog
  simp only [hc, hsplit]
  simp [htime, Message.AddFields, MapStr.Update, MapStr.get?_put]

/-- C9 at the line `2017-09-12T22:32:21.212861448Z stdout hello world`: the
content is `hello world`, the stream is `stdout` and the time is the one
written in the line. -/
theorem parseCRILog_fields_witness :
    (parseCRILog sampleLib recHelloWorld crioZero).err = none ∧
    (parseCRILog sampleLib recHelloWorld crioZero).message.Content = ascii "hello world" ∧
    (parseCRILog sampleLib recHelloWorld crioZero).message.Fields.get? (ascii "stream") =
      some (Value.str (ascii "stdout")) ∧
    (parseCRILog sampleLib recHelloWorld crioZero).message.Ts =
      ⟨2017, 9, 12, 22, 32, 21, 212861448, 0⟩ ∧
    (parseCRILog sampleLib recHelloWorld crioZero).isPartial = false ∧
    (parseCRILog sampleLib recHelloWorld crioZero).line =
      { Timestamp := ⟨2017, 9, 12, 22, 32, 21, 212861448, 0⟩, Stream := ascii "stdout",
        Log := ascii "hello world" } :=
  parseCRILog_fields sampleLib recHelloWorld crioZero
    (ascii "2017-09-12T22:32:21.212861448Z") (ascii "stdout") (ascii "hello world")
    ⟨2017, 9, 12, 22, 32, 21, 212861448, 0⟩ (by decide) (by decide) rfl (by decide)

/-- C10: `parseCRILog` returns the error `invalid CRI log` exactly when
splitting the content on its first two spaces gives fewer than three fields,
that is exactly when the content holds fewer than two spaces; with two spaces
or more the call succeeds or returns the timestamp error, according to whether
the first field parses as a time. -/
theorem parseCRILog_invalid_iff (lib : Lib Time) (message : Message Time)
    (msg : crioLog Time) :
    ((parseCRILog lib message msg).err = some Error.invalidCRI ↔
      (splitN SP 3 message.Content).length < 3) ∧
    ((splitN SP 3 message.Content).length < 3 ↔ message.Content.count SP < 2) ∧
    (2 ≤ message.Content.count SP →
      ((parseCRILog lib message msg).err = none ∧
        ∃ t, lib.timeParse ((splitN SP 3 message.Content).getD 0 []) = Except.ok t) ∨
      ∃ e, (parseCRILog lib message msg).err = some (Error.parsingCRITimestamp e) ∧
        lib.timeParse ((splitN SP 3 message.Content).getD 0 []) = Except.error e) := by
  have hlen : (splitN SP 3 message.Content).length < 3 ↔ message.Content.count SP < 2 := by
    rw [length_splitN]
    omega
  refine ⟨?_, hlen, ?_⟩
  · unfold parseCRILog
    by_cases h : (splitN SP 3 message.Content).length < 3
    · simp [h]
    · simp only [h, if_false, iff_false]
      cases lib.timeParse ((splitN SP 3 message.Content).getD 0 []) <;> simp
  · intro h2
    have h : ¬ (splitN SP 3 message.Content).length < 3 := by
      rw [hlen]
      omega
    unfold parseCRILog
    simp only [h, if_false]
    cases ht : lib.timeParse ((splitN SP 3 message.Content).getD 0 []) with
    | error e => exact Or.inr ⟨e, rfl, rfl⟩
    | ok t => exact Or.inl ⟨rfl, t, rfl⟩

end CRIParser

/-! ## Properties of the loop of `Next` -/

section Loop

variable {Time : Type}

/-- The loop on an upstream error: it returns at once what the reader
returned, whatever has been accumulated. -/
theorem nextLoop_upstream (lib : Lib Time) (stream : GoString) (cp : Bool) (acc : GoString)
    (m : Message Time) (e : String) (rest : List (Outcome Time)) :
    nextLoop lib stream cp acc ((m, some e) :: rest) =
      some ((m, some (Error.upstream e)), rest) := by
  simp [nextLoop]

/-- The loop on a record that it goes past. -/
theorem nextLoop_absorbed_cons (lib : Lib Time) (stream : GoString) (cp : Bool)
    (acc : GoString) (o : Outcome Time) (rest : List (Outcome Time))
    (h : absorbed lib stream cp o = true) :
    nextLoop lib stream cp acc (o :: rest) =
      nextLoop lib stream cp (accumulated lib stream acc [o]) rest := by
  obtain ⟨m, e⟩ := o
  cases e with
  | some e => simp [absorbed] at h
  | none =>
    simp only [absorbed, Bool.or_eq_true, Bool.and_eq_true] at h
    by_cases hf : filteredOut stream (sniff lib m) = true
    · simp [nextLoop, accumulated, hf]
    · rcases h with h | ⟨h1, h2⟩
      · exact absurd h hf
      · simp [nextLoop, accumulated, hf, h1, h2]

/-- The accumulated content over two runs of records. -/
theorem accumulated_append (lib : Lib Time) (stream : GoString) (acc : GoString)
    (xs ys : List (Outcome Time)) :
    accumulated lib stream acc (xs ++ ys) =
      accumulated lib stream (accumulated lib stream acc xs) ys := by
  induction xs generalizing acc with
  | nil => rfl
  | cons x xs ih => simp [accumulated, ih]

/-- The loop on a run of records that it goes past. -/
theorem nextLoop_absorbed (lib : Lib Time) (stream : GoString) (cp : Bool)
    (pre outs : List (Outcome Time)) (acc : GoString)
    (h : ∀ o ∈ pre, absorbed lib stream cp o = true) :
    nextLoop lib stream cp acc (pre ++ outs) =
      nextLoop lib stream cp (accumulated lib stream acc pre) outs := by
  induction pre generalizing acc with
  | nil => rfl
  | cons o os ih =>
    rw [List.cons_append, nextLoop_absorbed_cons lib stream cp acc o _ (h o (by simp))]
    rw [ih _ (fun x hx => h x (by simp [hx]))]
    rfl

/-- The loop on a record that it does not go past: the call returns. -/
theorem nextLoop_finished (lib : Lib Time) (stream : GoString) (cp : Bool) (acc : GoString)
    (m : Message Time) (rest : List (Outcome Time))
    (h : absorbed lib stream cp (m, none) = false) :
    nextLoop lib stream cp acc ((m, none) :: rest) = some (finished lib cp acc m, rest) := by
  simp only [absorbed, Bool.or_eq_false_iff, Bool.and_eq_false_iff] at h
  obtain ⟨hf, hp⟩ := h
  have hp2 : (cp && (sniff lib m).isPartial) = false := by
    rcases hp with hp | hp <;> simp [hp]
  cases cp with
  | false => simp [nextLoop, finished, hf]
  | true =>
    cases acc with
    | nil => simp [nextLoop, finished, hf, hp2]
    | cons a as => simp [nextLoop, finished, hf, hp2]

/-- What a returning call did, read off its result: it went past a run of
records and stopped at the next outcome, an upstream error or a record. -/
theorem nextLoop_eq_some (lib : Lib Time) (stream : GoString) (cp : Bool)
    (outs : List (Outcome Time)) (acc : GoString)
    (res : Message Time × Option Error) (rest : List (Outcome Time))
    (h : nextLoop lib stream cp acc outs = some (res, rest)) :
    ∃ pre o, outs = pre ++ o :: rest ∧ (∀ x ∈ pre, absorbed lib stream cp x = true) ∧
      ((∃ e, o.2 = some e ∧ res = (o.1, some (Error.upstream e))) ∨
       (o.2 = none ∧ absorbed lib stream cp o = false ∧
         res = finished lib cp (accumulated lib stream acc pre) o.1)) := by
  induction outs generalizing acc with
  | nil => simp [nextLoop] at h
  | cons o os ih =>
    cases ha : absorbed lib stream cp o with
    | true =>
      rw [nextLoop_absorbed_cons lib stream cp acc o os ha] at h
      obtain ⟨pre, o2, h1, h2, h3⟩ := ih _ h
      refine ⟨o :: pre, o2, by simp [h1], ?_, ?_⟩
      · intro x hx
        rcases List.mem_cons.mp hx with rfl | hx
        · exact ha
        · exact h2 x hx
      · exact h3
    | false =>
      obtain ⟨m, e⟩ := o
      cases e with
      | some e =>
        rw [nextLoop_upstream] at h
        simp only [Option.some.injEq, Prod.mk.injEq] at h
        obtain ⟨h1, h2⟩ := h
        exact ⟨[], (m, some e), by simp [h2], by simp, Or.inl ⟨e, rfl, h1.symm⟩⟩
      | none =>
        rw [nextLoop_finished lib stream cp acc m os ha] at h
        simp only [Option.some.injEq, Prod.mk.injEq] at h
        obtain ⟨h1, h2⟩ := h
        exact ⟨[], (m, none), by simp [h2], by simp, Or.inr ⟨rfl, ha, by simp [accumulated, h1]⟩⟩

/-- The stream filter `all` discards nothing. -/
theorem filteredOut_all (s : Sniffed Time) : filteredOut (ascii "all") s = false := by
  simp [filteredOut]

/-- The parsing step, spelled out by the first byte of the content. -/
theorem sniff_eq (lib : Lib Time) (m : Message Time) :
    sniff lib m =
      if m.Content.head? = some LBRACE then
        ⟨(parseDockerJSONLog lib m {}).message, (parseDockerJSONLog lib m {}).isPartial,
          (parseDockerJSONLog lib m {}).err, (parseDockerJSONLog lib m {}).line,
          { Timestamp := lib.zeroTime, Stream := [], Log := [] }⟩
      else
        ⟨(parseCRILog lib m { Timestamp := lib.zeroTime, Stream := [], Log := [] }).message,
          (parseCRILog lib m { Timestamp := lib.zeroTime, Stream := [], Log := [] }).isPartial,
          (parseCRILog lib m { Timestamp := lib.zeroTime, Stream := [], Log := [] }).err, {},
          (parseCRILog lib m { Timestamp := lib.zeroTime, Stream := [], Log := [] }).line⟩ := by
  unfold sniff
  cases hc : m.Content with
  | nil => simp [hasPrefixBrace]
  | cons c cs =>
    by_cases h : c = LBRACE <;> simp [hasPrefixBrace, h]

/-- The parsing step on a record whose content starts with an opening brace. -/
theorem sniff_docker (lib : Lib Time) (m : Message Time)
    (h : m.Content.head? = some LBRACE) :
    (sniff lib m).message = (parseDockerJSONLog lib m {}).message ∧
    (sniff lib m).isPartial = (parseDockerJSONLog lib m {}).isPartial ∧
    (sniff lib m).err = (parseDockerJSONLog lib m {}).err ∧
    (sniff lib m).dockerLine = (parseDockerJSONLog lib m {}).line ∧
    (sniff lib m).crioLine = { Timestamp := lib.zeroTime, Stream := [], Log := [] } := by
  rw [sniff_eq]
  simp [h]

/-- The parsing step on a record whose content does not start with an
opening brace. -/
theorem sniff_cri (lib : Lib Time) (m : Message Time)
    (h : m.Content.head? ≠ some LBRACE) :
    (sniff lib m).message =
      (parseCRILog lib m { Timestamp := lib.zeroTime, Stream := [], Log := [] }).message ∧
    (sniff lib m).isPartial =
      (parseCRILog lib m { Timestamp := lib.zeroTime, Stream := [], Log := [] }).isPartial ∧
    (sniff lib m).err =
      (parseCRILog lib m { Timestamp := lib.zeroTime, Stream := [], Log := [] }).err ∧
    (sniff lib m).dockerLine = {} ∧
    (sniff lib m).crioLine =
      (parseCRILog lib m { Timestamp := lib.zeroTime, Stream := [], Log := [] }).line := by
  rw [sniff_eq]
  simp [h]

/-- With the filter `all`, the accumulated content is the concatenation of
the parsed contents of the records gone past. -/
theorem accumulated_all (lib : Lib Time) (acc : GoString) (ms : List (Message Time)) :
    accumulated lib (ascii "all") acc (ms.map record) =
      acc ++ (ms.map (fun m => (sniff lib m).message.Content)).flatten := by
  induction ms generalizing acc with
  | nil => simp [accumulated]
  | cons m ms ih =>
    simp only [List.map_cons, accumulated, record, filteredOut_all]
    have := ih (acc ++ (sniff lib m).message.Content)
    simp only [record] at this
    simp [this]

/-- The method `Next` in terms of its loop. -/
theorem Next_eq (lib : Lib Time) (p : DockerJSON Time)
    (res : Message Time × Option Error) (rest : List (Outcome Time))
    (h : nextLoop lib p.stream p.concatPartial [] p.reader = some (res, rest)) :
    p.Next lib = some (res, { p with reader := rest }) := by
  simp [DockerJSON.Next, h]

/-- C3: with `concatPartial` and the filter `all`, when the reader's next
records are `k` valid Docker JSON lines flagged partial followed by a valid
one that is not, one call to `Next` reads exactly these `k + 1` records and
returns, without error, one message whose content is the concatenation of
the decoded logs in read order and whose timestamp and stream field are those
of the last of these records. -/
theorem Next_concat_run (lib : Lib Time) (p : DockerJSON Time)
    (parts : List (Message Time)) (last : Message Time) (rest : List (Outcome Time))
    (hstream : p.stream = ascii "all") (hcp : p.concatPartial = true)
    (hreader : p.reader = parts.map record ++ record last :: rest)
    (hparts : ∀ m ∈ parts, m.Content.head? = some LBRACE ∧
      (parseDockerJSONLog lib m {}).err = none ∧
      (parseDockerJSONLog lib m {}).isPartial = true)
    (hlast : last.Content.head? = some LBRACE ∧
      (parseDockerJSONLog lib last {}).err = none ∧
      (parseDockerJSONLog lib last {}).isPartial = false) :
    ∃ msg, p.Next lib = some ((msg, none), { p with reader := rest }) ∧
      msg.Content =
        (parts.map (fun m => (lib.jsonDecode m.Content {}).1.Log)).flatten ++
          (lib.jsonDecode last.Content {}).1.Log ∧
      lib.timeParse (lib.jsonDecode last.Content {}).1.Timestamp = Except.ok msg.Ts ∧
      msg.Fields.get? (ascii "stream") =
        some (Value.str (lib.jsonDecode last.Content {}).1.Stream) := by
  have habs : ∀ o ∈ parts.map record, absorbed lib p.stream p.concatPartial o = true := by
    intro o ho
    obtain ⟨m, hm, rfl⟩ := List.mem_map.mp ho
    obtain ⟨h1, -, h3⟩ := hparts m hm
    simp [absorbed, record, hcp, (sniff_docker lib m h1).2.1, h3]
  have hnot : absorbed lib p.stream p.concatPartial (last, none) = false := by
    simp [absorbed, hstream, filteredOut_all, (sniff_docker lib last hlast.1).2.1, hlast.2.2]
  have hloop : nextLoop lib p.stream p.concatPartial [] p.reader =
      some (finished lib p.concatPartial
        (accumulated lib p.stream [] (parts.map record)) last, rest) := by
    rw [hreader, nextLoop_absorbed lib p.stream p.concatPartial _ _ [] habs]
    exact nextLoop_finished lib p.stream p.concatPartial _ last rest hnot
  have hcontents : (parts.map (fun m => (sniff lib m).message.Content)) =
      (parts.map (fun m => (lib.jsonDecode m.Content {}).1.Log)) := by
    apply List.map_congr_left
    intro m hm
    obtain ⟨h1, h2, -⟩ := hparts m hm
    obtain ⟨-, ⟨ts, -, hmsg⟩, -, -⟩ := parseDockerJSONLog_ok lib m {} h2
    rw [(sniff_docker lib m h1).1, hmsg]
  obtain ⟨-, ⟨ts, hts, hmsg⟩, -, -⟩ := parseDockerJSONLog_ok lib last {} hlast.2.1
  have hsm := (sniff_docker lib last hlast.1).1
  have hse := (sniff_docker lib last hlast.1).2.2.1
  refine ⟨_, Next_eq lib p _ rest (by rw [hloop, finished, hse, hlast.2.1]), ?_, ?_, ?_⟩
  · simp [hcp, hstream, accumulated_all, hcontents, hsm, hmsg]
  · simp [hsm, hmsg, hts]
  · simp [hsm, hmsg, MapStr.get?_put]

/-- The parsing step returns the result of the selected parser. -/
theorem sniff_parseSelected (lib : Lib Time) (r : Message Time) :
    ((sniff lib r).message, (sniff lib r).err) = parseSelected lib r := by
  unfold parseSelected
  by_cases h : r.Content.head? = some LBRACE
  · simp [h, sniff_docker lib r h]
  · simp [h, sniff_cri lib r h]

/-- One call without `concatPartial` and with the filter `all`. -/
theorem Next_plain (lib : Lib Time) (p : DockerJSON Time) (r : Message Time)
    (rest : List (Outcome Time)) (hstream : p.stream = ascii "all")
    (hcp : p.concatPartial = false) (hreader : p.reader = record r :: rest) :
    p.Next lib = some (parseSelected lib r, { p with reader := rest }) := by
  have hnot : absorbed lib p.stream p.concatPartial (r, none) = false := by
    simp [absorbed, hstream, filteredOut_all, hcp]
  apply Next_eq
  rw [hreader, record, nextLoop_finished lib _ _ _ r rest hnot, ← sniff_parseSelected]
  simp [finished, hcp]

/-- C4: without `concatPartial` and with the filter `all`, a call to `Next`
on a reader whose next outcome is a record reads that one record and returns
the message and error of the parser selected by the record's first byte,
whether the record is flagged partial or not; so `n` successive calls return
the parse results of the first `n` records in read order. -/
theorem Next_without_concat (lib : Lib Time) :
    (∀ (r : Message Time) (rest : List (Outcome Time)),
      (NewDockerJSON (record r :: rest) (ascii "all") false).Next lib =
        some (parseSelected lib r, NewDockerJSON rest (ascii "all") false)) ∧
    (∀ (rs : List (Message Time)) (rest : List (Outcome Time)),
      nextTimes lib rs.length (NewDockerJSON (rs.map record ++ rest) (ascii "all") false) =
        some (rs.map (parseSelected lib), NewDockerJSON rest (ascii "all") false)) := by
  have hone : ∀ (r : Message Time) (rest : List (Outcome Time)),
      (NewDockerJSON (record r :: rest) (ascii "all") false).Next lib =
        some (parseSelected lib r, NewDockerJSON rest (ascii "all") false) := by
    intro r rest
    exact Next_plain lib (NewDockerJSON (record r :: rest) (ascii "all") false) r rest
      rfl rfl rfl
  refine ⟨hone, ?_⟩
  intro rs rest
  induction rs with
  | nil => simp [nextTimes]
  | cons r rs ih =>
    simp only [List.map_cons, List.cons_append, List.length_cons, nextTimes, hone, ih]
    simp

/-- C3 on two partial lines with log `abc` followed by the line with log
`abc` and a newline, and then a CRI line: the call returns the three logs as
one content and leaves the CRI line to the reader. -/
theorem Next_concat_run_witness :
    (∃ msg, (NewDockerJSON [record recAbc, record recAbc, record recAbcNL, record recHelloWorld]
          (ascii "all") true).Next sampleLib =
        some ((msg, none),
          { NewDockerJSON [record recAbc, record recAbc, record recAbcNL, record recHelloWorld]
              (ascii "all") true with reader := [record recHelloWorld] }) ∧
      msg.Content =
        ([recAbc, recAbc].map (fun m => (sampleLib.jsonDecode m.Content {}).1.Log)).flatten ++
          (sampleLib.jsonDecode recAbcNL.Content {}).1.Log ∧
      sampleLib.timeParse (sampleLib.jsonDecode recAbcNL.Content {}).1.Timestamp =
        Except.ok msg.Ts ∧
      msg.Fields.get? (ascii "stream") =
        some (Value.str (sampleLib.jsonDecode recAbcNL.Content {}).1.Stream)) ∧
    ([recAbc, recAbc].map (fun m => (sampleLib.jsonDecode m.Content {}).1.Log)).flatten ++
      (sampleLib.jsonDecode recAbcNL.Content {}).1.Log = ascii "abcabcabc\n" :=
  ⟨Next_concat_run sampleLib
      (NewDockerJSON [record recAbc, record recAbc, record recAbcNL, record recHelloWorld]
        (ascii "all") true)
      [recAbc, recAbc] recAbcNL [record recHelloWorld] rfl rfl rfl (by decide) (by decide),
    by decide⟩

/-- What `parseDockerJSONLog` returns with an error: the message it was
given, the flag false, and an error that is not an upstream one. -/
theorem parseDockerJSONLog_err (lib : Lib Time) (message : Message Time) (msg : dockerLog)
    (h : (parseDockerJSONLog lib message msg).err ≠ none) :
    (parseDockerJSONLog lib message msg).message = message ∧
    (parseDockerJSONLog lib message msg).isPartial = false ∧
    ∀ u, (parseDockerJSONLog lib message msg).err ≠ some (Error.upstream u) := by
  unfold parseDockerJSONLog at h ⊢
  rcases hd : lib.jsonDecode message.Content msg with ⟨d, _ | e⟩
  · rw [hd] at h
    simp only at h ⊢
    cases ht : lib.timeParse d.Timestamp with
    | error e => simp
    | ok ts => rw [ht] at h; simp at h
  · simp

/-- What `parseCRILog` returns: without error, the third field as content,
the second as stream field and in the line struct; with an error, the message
it was given and the line struct untouched. -/
theorem parseCRILog_cases (lib : Lib Time) (message : Message Time) (msg : crioLog Time) :
    ((parseCRILog lib message msg).err = none ∧
      (parseCRILog lib message msg).message.Content = (splitN SP 3 message.Content).getD 2 [] ∧
      (parseCRILog lib message msg).message.Fields.get? (ascii "stream") =
        some (Value.str (parseCRILog lib message msg).line.Stream)) ∨
    ((parseCRILog lib message msg).err ≠ none ∧
      (parseCRILog lib message msg).message = message ∧
      (parseCRILog lib message msg).line = msg ∧
      ∀ u, (parseCRILog lib message msg).err ≠ some (Error.upstream u)) := by
  unfold parseCRILog
  by_cases h : (splitN SP 3 message.Content).length < 3
  · simp [h]
  · simp only [h, if_false]
    cases lib.timeParse ((splitN SP 3 message.Content).getD 0 []) with
    | error e => simp
    | ok t => simp [Message.AddFields, MapStr.Update, MapStr.get?_put]

/-- The flag `isPartial` of `parseCRILog` is false. -/
theorem parseCRILog_isPartial (lib : Lib Time) (message : Message Time) (msg : crioLog Time) :
    (parseCRILog lib message msg).isPartial = false := by
  unfold parseCRILog
  by_cases h : (splitN SP 3 message.Content).length < 3
  · simp [h]
  · simp only [h, if_false]
    cases lib.timeParse ((splitN SP 3 message.Content).getD 0 []) <;> simp

/-- The two ways the parsing step ends.  Without error, the content is the
payload and the stream field is the tag of the line struct that was filled,
the other one holding the empty tag.  With an error, which is not an upstream
one, the message is the record as read and the flag is false. -/
theorem sniff_cases (lib : Lib Time) (m : Message Time) :
    ((sniff lib m).err = none ∧ (sniff lib m).message.Content = payloadOf lib m ∧
      ∃ tag, (sniff lib m).message.Fields.get? (ascii "stream") = some (Value.str tag) ∧
        ((sniff lib m).dockerLine.Stream = tag ∧ (sniff lib m).crioLine.Stream = [] ∨
         (sniff lib m).crioLine.Stream = tag ∧ (sniff lib m).dockerLine.Stream = [])) ∨
    ((sniff lib m).err ≠ none ∧ (sniff lib m).message = m ∧ (sniff lib m).isPartial = false ∧
      ∀ u, (sniff lib m).err ≠ some (Error.upstream u)) := by
  by_cases hb : m.Content.head? = some LBRACE
  · obtain ⟨h1, h2, h3, h4, h5⟩ := sniff_docker lib m hb
    rw [h1, h2, h3, h4, h5]
    cases he : (parseDockerJSONLog lib m {}).err with
    | none =>
      obtain ⟨-, ⟨ts, -, hmsg⟩, hline, -⟩ := parseDockerJSONLog_ok lib m {} he
      left
      refine ⟨rfl, by simp [hmsg, payloadOf, hb], _, ?_, Or.inl ⟨rfl, rfl⟩⟩
      rw [hmsg, hline]
      exact MapStr.get?_put _ _ _
    | some e =>
      have hne : (parseDockerJSONLog lib m {}).err ≠ none := by simp [he]
      obtain ⟨g1, g2, g3⟩ := parseDockerJSONLog_err lib m {} hne
      right
      exact ⟨by simp, g1, g2, fun u => he ▸ g3 u⟩
  · obtain ⟨h1, h2, h3, h4, h5⟩ := sniff_cri lib m hb
    rw [h1, h2, h3, h4, h5]
    rcases parseCRILog_cases lib m { Timestamp := lib.zeroTime, Stream := [], Log := [] }
      with ⟨g1, g2, g3⟩ | ⟨g1, g2, -, g4⟩
    · left
      exact ⟨g1, by simp [g2, payloadOf, hb], _, g3, Or.inr ⟨rfl, rfl⟩⟩
    · right
      exact ⟨g1, g2, parseCRILog_isPartial _ _ _, g4⟩

/-- A record flagged partial was parsed without error. -/
theorem sniff_isPartial (lib : Lib Time) (m : Message Time)
    (h : (sniff lib m).isPartial = true) : (sniff lib m).err = none := by
  rcases sniff_cases lib m with h1 | h1
  · exact h1.1
  · rw [h1.2.2.1] at h
    exact absurd h (by simp)

/-- A record that a filter other than `all` and other than the empty tag
lets through carries that filter's tag as stream field once parsed, or was
returned as read with a parser error. -/
theorem sniff_not_filtered (lib : Lib Time) (stream : GoString) (m : Message Time)
    (hall : stream ≠ ascii "all") (hne : stream ≠ [])
    (hf : filteredOut stream (sniff lib m) = false) :
    (sniff lib m).message.Fields.get? (ascii "stream") = some (Value.str stream) ∨
      (sniff lib m).message = m := by
  rcases sniff_cases lib m with ⟨-, -, tag, h1, h2⟩ | ⟨-, h2, -⟩
  · left
    simp only [filteredOut, Bool.and_eq_false_iff, decide_eq_false_iff_not, not_not] at hf
    rcases hf with (hf | hf) | hf
    · exact absurd hf hall
    · rcases h2 with ⟨g1, -⟩ | ⟨-, g2⟩
      · rw [h1, hf, g1]
      · rw [g2] at hf
        exact absurd hf hne
    · rcases h2 with ⟨-, g2⟩ | ⟨g1, -⟩
      · rw [g2] at hf
        exact absurd hf hne
      · rw [h1, hf, g1]
  · exact Or.inr h2

/-- The stream field of a message returned by `Next` under a filter other
than `all`, when the records read carry no stream field of their own and the
call did not end on an upstream error: unset, or the filter's tag. -/
theorem Next_stream_field (lib : Lib Time) (p : DockerJSON Time)
    (hall : p.stream ≠ ascii "all") (hne : p.stream ≠ [])
    (hraw : ∀ o ∈ p.reader, o.2 = none → o.1.Fields.get? (ascii "stream") = none)
    (m : Message Time) (e : Option Error) (q : DockerJSON Time)
    (h : p.Next lib = some ((m, e), q)) (hup : ∀ u, e ≠ some (Error.upstream u)) :
    m.Fields.get? (ascii "stream") = none ∨
      m.Fields.get? (ascii "stream") = some (Value.str p.stream) := by
  simp only [DockerJSON.Next, Option.map_eq_some'] at h
  obtain ⟨⟨res, rest⟩, hloop, hres⟩ := h
  simp only [Prod.mk.injEq] at hres
  obtain ⟨pre, o, h1, -, h3⟩ := nextLoop_eq_some lib _ _ _ _ _ _ hloop
  rcases h3 with ⟨u, -, h3⟩ | ⟨ho, habs, h3⟩
  · rw [h3] at hres
    simp only [Prod.mk.injEq] at hres
    exact absurd hres.1.2.symm (hup u)
  · rw [h3] at hres
    simp only [finished, Prod.mk.injEq] at hres
    have hm : m.Fields = (sniff lib o.1).message.Fields := by rw [← hres.1.1]
    have hf : filteredOut p.stream (sniff lib o.1) = false := by
      simp only [absorbed, ho, Bool.or_eq_false_iff] at habs
      exact habs.1
    rw [hm]
    rcases sniff_not_filtered lib p.stream o.1 hall hne hf with h4 | h4
    · exact Or.inr h4
    · left
      rw [h4]
      exact hraw o (by simp [h1]) ho

/-- A call to `Next` that returns leaves to the reader a suffix of its
outcomes. -/
theorem Next_reader_suffix (lib : Lib Time) (p q : DockerJSON Time)
    (res : Message Time × Option Error) (h : p.Next lib = some (res, q)) :
    q.stream = p.stream ∧ q.concatPartial = p.concatPartial ∧
      ∃ consumed, p.reader = consumed ++ q.reader := by
  simp only [DockerJSON.Next, Option.map_eq_some'] at h
  obtain ⟨⟨res2, rest⟩, hloop, hres⟩ := h
  simp only [Prod.mk.injEq] at hres
  obtain ⟨pre, o, h1, -, -⟩ := nextLoop_eq_some lib _ _ _ _ _ _ hloop
  rw [← hres.2]
  exact ⟨rfl, rfl, pre ++ [o], by simp [h1]⟩

/-- The stream field of every message returned by successive calls to `Next`
under a filter other than `all`, when the records read carry no stream field
of their own: unset, or the filter's tag, unless the call ended on an upstream
error. -/
theorem nextTimes_stream_field (lib : Lib Time) (n : Nat) (p : DockerJSON Time)
    (hall : p.stream ≠ ascii "all") (hne : p.stream ≠ [])
    (hraw : ∀ o ∈ p.reader, o.2 = none → o.1.Fields.get? (ascii "stream") = none)
    (results : List (Message Time × Option Error)) (q : DockerJSON Time)
    (h : nextTimes lib n p = some (results, q)) :
    ∀ r ∈ results, (∀ u, r.2 ≠ some (Error.upstream u)) →
      r.1.Fields.get? (ascii "stream") = none ∨
        r.1.Fields.get? (ascii "stream") = some (Value.str p.stream) := by
  induction n generalizing p results q with
  | zero =>
    simp only [nextTimes, Option.some.injEq, Prod.mk.injEq] at h
    intro r hr
    rw [← h.1] at hr
    simp at hr
  | succ n ih =>
    simp only [nextTimes] at h
    cases hnext : p.Next lib with
    | none => rw [hnext] at h; simp at h
    | some val =>
      obtain ⟨⟨m, e⟩, p2⟩ := val
      rw [hnext] at h
      simp only [Option.map_eq_some'] at h
      obtain ⟨⟨rs, q2⟩, hrec, hres⟩ := h
      simp only [Prod.mk.injEq] at hres
      obtain ⟨hs, -, consumed, hcons⟩ := Next_reader_suffix lib p p2 (m, e) hnext
      have hraw2 : ∀ o ∈ p2.reader, o.2 = none → o.1.Fields.get? (ascii "stream") = none :=
        fun o ho => hraw o (by rw [hcons]; simp [ho])
      have ih2 := ih p2 (hs ▸ hall) (hs ▸ hne) hraw2 rs q2 hrec
      intro r hr
      rw [← hres.1] at hr
      rcases List.mem_cons.mp hr with rfl | hr
      · exact Next_stream_field lib p hall hne hraw m e p2 hnext
      · rw [← hs]
        exact ih2 r hr

/-- C5: when the records read carry no stream field of their own, no message
returned by successive calls to `Next` under the filter `stdout` has the
stream field `stderr`, and none under the filter `stderr` has the stream
field `stdout`, for every value of `concatPartial`, calls that end on an
upstream error apart; and the filter `all` discards no record. -/
theorem Next_stream_filter (lib : Lib Time) (reader : List (Outcome Time))
    (concatPartial : Bool)
    (hraw : ∀ o ∈ reader, o.2 = none → o.1.Fields.get? (ascii "stream") = none) :
    (∀ n results q,
      nextTimes lib n (NewDockerJSON reader (ascii "stdout") concatPartial) =
        some (results, q) →
      ∀ r ∈ results, (∀ u, r.2 ≠ some (Error.upstream u)) →
        r.1.Fields.get? (ascii "stream") ≠ some (Value.str (ascii "stderr"))) ∧
    (∀ n results q,
      nextTimes lib n (NewDockerJSON reader (ascii "stderr") concatPartial) =
        some (results, q) →
      ∀ r ∈ results, (∀ u, r.2 ≠ some (Error.upstream u)) →
        r.1.Fields.get? (ascii "stream") ≠ some (Value.str (ascii "stdout"))) ∧
    (∀ m : Message Time, filteredOut (ascii "all") (sniff lib m) = false) := by
  refine ⟨?_, ?_, fun m => filteredOut_all _⟩
  · intro n results q h r hr hup
    have := nextTimes_stream_field lib n (NewDockerJSON reader (ascii "stdout") concatPartial)
      (show ascii "stdout" ≠ ascii "all" by decide) (show ascii "stdout" ≠ [] by decide)
      hraw results q h r hr hup
    rcases this with h1 | h1 <;> rw [h1]
    · simp
    · simp only [NewDockerJSON]
      decide
  · intro n results q h r hr hup
    have := nextTimes_stream_field lib n (NewDockerJSON reader (ascii "stderr") concatPartial)
      (show ascii "stderr" ≠ ascii "all" by decide) (show ascii "stderr" ≠ [] by decide)
      hraw results q h r hr hup
    rcases this with h1 | h1 <;> rw [h1]
    · simp
    · simp only [NewDockerJSON]
      decide

/-- C5 on a reader that holds a `stderr` line, a `stdout` line and a CRI
`stdout` line: the records carry no stream field, and the two calls under the
filter `stdout` return the two `stdout` lines. -/
theorem Next_stream_filter_witness :
    ((∀ n results q,
      nextTimes sampleLib n
          (NewDockerJSON [record recStderr, record recAbcNL, record recHelloWorld]
            (ascii "stdout") true) = some (results, q) →
      ∀ r ∈ results, (∀ u, r.2 ≠ some (Error.upstream u)) →
        r.1.Fields.get? (ascii "stream") ≠ some (Value.str (ascii "stderr"))) ∧
    (∀ n results q,
      nextTimes sampleLib n
          (NewDockerJSON [record recStderr, record recAbcNL, record recHelloWorld]
            (ascii "stderr") true) = some (results, q) →
      ∀ r ∈ results, (∀ u, r.2 ≠ some (Error.upstream u)) →
        r.1.Fields.get? (ascii "stream") ≠ some (Value.str (ascii "stdout"))) ∧
    (∀ m : Message SampleTime, filteredOut (ascii "all") (sniff sampleLib m) = false)) ∧
    (nextTimes sampleLib 2
        (NewDockerJSON [record recStderr, record recAbcNL, record recHelloWorld]
          (ascii "stdout") true)).map (fun t => t.1.map (fun r => (r.1.Content, r.2))) =
      some [(ascii "abc\n", none), (ascii "hello world", none)] :=
  ⟨Next_stream_filter sampleLib [record recStderr, record recAbcNL, record recHelloWorld] true
    (by decide), by decide⟩

/-- C6 fails as stated: with the filter `all` and without `concatPartial`, on
a Docker JSON line whose time does not parse, `Next` returns, with the
timestamp error, the record as read: no stream field is set and the content is
still the whole JSON line. -/
theorem Next_error_returns_raw_record :
    (NewDockerJSON [record recBadTime] (ascii "all") false).Next sampleLib =
      some ((recBadTime,
          some (Error.parsingDockerTimestamp "parsing time: cannot parse as RFC3339")),
        NewDockerJSON [] (ascii "all") false) ∧
    recBadTime.Fields.get? (ascii "stream") = none ∧
    recBadTime.Content =
      ascii "\x7b\"log\":\"abc\\n\",\"stream\":\"stdout\",\"time\":\"yesterday\"\x7d" ∧
    payloadOf sampleLib recBadTime = ascii "abc\n" := by
  decide

/-- The accumulated content is what was there followed by the parsed
contents of the records that the stream filter lets through. -/
theorem accumulated_eq (lib : Lib Time) (stream : GoString) (acc : GoString)
    (pre : List (Outcome Time)) :
    accumulated lib stream acc pre =
      acc ++ ((pre.filter (fun o => !filteredOut stream (sniff lib o.1))).map
        (fun o => (sniff lib o.1).message.Content)).flatten := by
  induction pre generalizing acc with
  | nil => simp [accumulated]
  | cons o os ih =>
    by_cases hf : filteredOut stream (sniff lib o.1) = true
    · simp [accumulated, hf, ih]
    · simp [accumulated, hf, ih]

/-- The error of the selected parser is the error of the parsing step. -/
theorem parseSelected_err (lib : Lib Time) (r : Message Time) :
    (parseSelected lib r).2 = (sniff lib r).err := by
  rw [← sniff_parseSelected]

/-- The outcomes that the loop goes past are records. -/
theorem absorbed_records (lib : Lib Time) (stream : GoString) (cp : Bool)
    (pre : List (Outcome Time)) (h : ∀ x ∈ pre, absorbed lib stream cp x = true) :
    pre = (pre.map (fun x => x.1)).map record := by
  induction pre with
  | nil => rfl
  | cons x xs ih =>
    have hx := h x (by simp)
    obtain ⟨x1, x2⟩ := x
    cases x2 with
    | some v => simp [absorbed] at hx
    | none =>
      simp only [List.map_cons, record]
      rw [← ih (fun y hy => h y (by simp [hy]))]

/-- C6, amended: whenever `Next` returns without error, for every filter and
every value of `concatPartial`, the call has read a run of records from the
reader, the last of which the stream filter lets through; every record of
the run that the filter lets through parsed without error; the returned
message has as stream field the parsed stream tag of the last record; and
its content is made of payloads only: it is the concatenation, in read order,
of the payloads of all the records of the run that the filter lets
through. -/
theorem Next_ok_message (lib : Lib Time) (p q : DockerJSON Time) (m : Message Time)
    (h : p.Next lib = some ((m, none), q)) :
    ∃ (before : List (Message Time)) (last : Message Time),
      p.reader = (before ++ [last]).map record ++ q.reader ∧
      q = { p with reader := q.reader } ∧
      filteredOut p.stream (sniff lib last) = false ∧
      (∀ r ∈ (before ++ [last]).filter (fun r => !filteredOut p.stream (sniff lib r)),
        (parseSelected lib r).2 = none) ∧
      (∃ tag, m.Fields.get? (ascii "stream") = some (Value.str tag) ∧
        parsedTag lib last = some (Value.str tag)) ∧
      m.Content =
        (((before ++ [last]).filter (fun r => !filteredOut p.stream (sniff lib r))).map
          (payloadOf lib)).flatten := by
  simp only [DockerJSON.Next, Option.map_eq_some'] at h
  obtain ⟨⟨res, rest⟩, hloop, hres⟩ := h
  simp only [Prod.mk.injEq] at hres
  obtain ⟨pre, o, h1, h2, h3⟩ := nextLoop_eq_some lib _ _ _ _ _ _ hloop
  rcases h3 with ⟨u, -, h3⟩ | ⟨ho, habs, h3⟩
  · rw [h3] at hres
    simp at hres
  · rw [h3] at hres
    simp only [finished, Prod.mk.injEq] at hres
    obtain ⟨⟨hm, herr⟩, hq⟩ := hres
    have hqr : q.reader = rest := by rw [← hq]
    have hlastf : filteredOut p.stream (sniff lib o.1) = false := by
      simp only [absorbed, ho, Bool.or_eq_false_iff] at habs
      exact habs.1
    rcases sniff_cases lib o.1 with ⟨-, hcontent, tag, htag, -⟩ | ⟨hne, -⟩
    swap
    · exact absurd herr hne
    have hkept : ∀ x ∈ pre, filteredOut p.stream (sniff lib x.1) = false →
        p.concatPartial = true ∧ (sniff lib x.1).err = none ∧
          (sniff lib x.1).message.Content = payloadOf lib x.1 := by
      intro x hx hf
      have hax := h2 x hx
      simp only [absorbed] at hax
      cases hx2 : x.2 with
      | some v => rw [hx2] at hax; simp at hax
      | none =>
        rw [hx2] at hax
        simp only [hf, Bool.false_or, Bool.and_eq_true] at hax
        have hok := sniff_isPartial lib x.1 hax.2
        rcases sniff_cases lib x.1 with ⟨-, hc, -⟩ | ⟨hne, -⟩
        · exact ⟨hax.1, hok, hc⟩
        · exact absurd hok hne
    have hfilter : (pre.map (fun x => x.1)).filter
          (fun r => !filteredOut p.stream (sniff lib r)) =
        (pre.filter (fun x => !filteredOut p.stream (sniff lib x.1))).map (fun x => x.1) := by
      rw [List.filter_map]
      rfl
    have hall : (pre.map (fun x => x.1) ++ [o.1]).filter
          (fun r => !filteredOut p.stream (sniff lib r)) =
        (pre.filter (fun x => !filteredOut p.stream (sniff lib x.1))).map (fun x => x.1) ++
          [o.1] := by
      rw [List.filter_append, hfilter]
      simp [hlastf]
    have hacc : (if p.concatPartial = true then accumulated lib p.stream [] pre else []) =
        (((pre.filter (fun x => !filteredOut p.stream (sniff lib x.1))).map (fun x => x.1)).map
          (payloadOf lib)).flatten := by
      have hmap : ((pre.filter (fun x => !filteredOut p.stream (sniff lib x.1))).map
            (fun x => x.1)).map (payloadOf lib) =
          (pre.filter (fun x => !filteredOut p.stream (sniff lib x.1))).map
            (fun x => (sniff lib x.1).message.Content) := by
        rw [List.map_map]
        apply List.map_congr_left
        intro x hx
        obtain ⟨hx1, hx2⟩ := List.mem_filter.mp hx
        simp only [Bool.not_eq_true', Function.comp] at hx2 ⊢
        exact (hkept x hx1 hx2).2.2.symm
      rw [hmap]
      cases hcp : p.concatPartial with
      | true => simp [accumulated_eq]
      | false =>
        have hnil : pre.filter (fun x => !filteredOut p.stream (sniff lib x.1)) = [] := by
          rw [List.filter_eq_nil_iff]
          intro x hx hf
          simp only [Bool.not_eq_true'] at hf
          have := (hkept x hx hf).1
          rw [hcp] at this
          exact absurd this (by simp)
        simp [hnil]
    refine ⟨pre.map (fun x => x.1), o.1, ?_, hq.symm ▸ rfl, hlastf, ?_, ?_, ?_⟩
    · rw [h1, hqr, List.map_append, ← absorbed_records lib _ _ pre h2]
      obtain ⟨o1, o2⟩ := o
      simp only at ho
      simp [record, ho]
    · intro r hr
      rw [parseSelected_err]
      rw [hall] at hr
      rcases List.mem_append.mp hr with hr | hr
      · obtain ⟨x, hx, rfl⟩ := List.mem_map.mp hr
        obtain ⟨hx1, hx2⟩ := List.mem_filter.mp hx
        simp only [Bool.not_eq_true'] at hx2
        exact (hkept x hx1 hx2).2.1
      · simp only [List.mem_singleton] at hr
        rw [hr]
        exact herr
    · refine ⟨tag, by rw [← hm]; exact htag, ?_⟩
      rw [parsedTag, ← sniff_parseSelected]
      exact htag
    · rw [hall, ← hm]
      simp only [List.map_append, List.flatten_append, List.map_cons, List.map_nil]
      rw [← hacc, hcontent]
      simp

/-- C6, amended, on a `stderr` line between two partial `stdout` lines and a
complete one, read with `concatPartial` under the filter `stdout`: the call
reads the four records and returns, without error, the three `stdout` logs as
one content. -/
theorem Next_ok_message_witness :
    (NewDockerJSON [record recAbc, record recStderr, record recAbc, record recAbcNL,
          record recHelloWorld] (ascii "stdout") true).Next sampleLib =
      some (({ recAbcNL with
            Ts := ⟨2017, 9, 12, 22, 32, 21, 212861448, 0⟩
            Content := ascii "abcabcabc\n"
            Fields := [(ascii "stream", Value.str (ascii "stdout"))] }, none),
        NewDockerJSON [record recHelloWorld] (ascii "stdout") true) ∧
    (∃ (before : List (Message SampleTime)) (last : Message SampleTime),
      (NewDockerJSON [record recAbc, record recStderr, record recAbc, record recAbcNL,
          record recHelloWorld] (ascii "stdout") true).reader =
        (before ++ [last]).map record ++
          (NewDockerJSON [record recHelloWorld] (ascii "stdout") true).reader ∧
      NewDockerJSON [record recHelloWorld] (ascii "stdout") true =
        { NewDockerJSON [record recAbc, record recStderr, record recAbc, record recAbcNL,
            record recHelloWorld] (ascii "stdout") true with
          reader := (NewDockerJSON [record recHelloWorld] (ascii "stdout") true).reader } ∧
      filteredOut (NewDockerJSON [record recAbc, record recStderr, record recAbc,
          record recAbcNL, record recHelloWorld] (ascii "stdout") true).stream
        (sniff sampleLib last) = false ∧
      (∀ r ∈ (before ++ [last]).filter
          (fun r => !filteredOut (NewDockerJSON [record recAbc, record recStderr,
            record recAbc, record recAbcNL, record recHelloWorld]
            (ascii "stdout") true).stream (sniff sampleLib r)),
        (parseSelected sampleLib r).2 = none) ∧
      (∃ tag, ({ recAbcNL with
            Ts := ⟨2017, 9, 12, 22, 32, 21, 212861448, 0⟩
            Content := ascii "abcabcabc\n"
            Fields := [(ascii "stream", Value.str (ascii "stdout"))] } :
          Message SampleTime).Fields.get? (ascii "stream") = some (Value.str tag) ∧
        parsedTag sampleLib last = some (Value.str tag)) ∧
      ({ recAbcNL with
            Ts := ⟨2017, 9, 12, 22, 32, 21, 212861448, 0⟩
            Content := ascii "abcabcabc\n"
            Fields := [(ascii "stream", Value.str (ascii "stdout"))] } :
          Message SampleTime).Content =
        (((before ++ [last]).filter
          (fun r => !filteredOut (NewDockerJSON [record recAbc, record recStderr,
            record recAbc, record recAbcNL, record recHelloWorld]
            (ascii "stdout") true).stream (sniff sampleLib r))).map
          (payloadOf sampleLib)).flatten) :=
  ⟨by decide,
    Next_ok_message sampleLib
      (NewDockerJSON [record recAbc, record recStderr, record recAbc, record recAbcNL,
        record recHelloWorld] (ascii "stdout") true)
      (NewDockerJSON [record recHelloWorld] (ascii "stdout") true) _ (by decide)⟩

/-- C7: when the next outcome that `Next` reaches is an upstream error (end
of stream or I/O error), that is when every outcome before it is a record the
loop goes past, the call returns at once the message and the error the reader
returned, for every filter, every value of `concatPartial` and every content
accumulated so far; the reader is left after the error, and the later calls
return what they return on a decoder that never read the accumulated
records. -/
theorem Next_upstream_error (lib : Lib Time) (stream : GoString) (concatPartial : Bool)
    (pre : List (Outcome Time)) (m : Message Time) (e : String) (rest : List (Outcome Time))
    (hpre : ∀ o ∈ pre, absorbed lib stream concatPartial o = true) :
    (∀ acc, nextLoop lib stream concatPartial acc (pre ++ (m, some e) :: rest) =
      some ((m, some (Error.upstream e)), rest)) ∧
    (NewDockerJSON (pre ++ (m, some e) :: rest) stream concatPartial).Next lib =
      some ((m, some (Error.upstream e)), NewDockerJSON rest stream concatPartial) ∧
    (∀ n, nextTimes lib (n + 1)
        (NewDockerJSON (pre ++ (m, some e) :: rest) stream concatPartial) =
      (nextTimes lib n (NewDockerJSON rest stream concatPartial)).map
        (fun t => ((m, some (Error.upstream e)) :: t.1, t.2))) := by
  have hloop : ∀ acc, nextLoop lib stream concatPartial acc (pre ++ (m, some e) :: rest) =
      some ((m, some (Error.upstream e)), rest) := by
    intro acc
    rw [nextLoop_absorbed lib stream concatPartial pre _ acc hpre, nextLoop_upstream]
  have hnext : (NewDockerJSON (pre ++ (m, some e) :: rest) stream concatPartial).Next lib =
      some ((m, some (Error.upstream e)), NewDockerJSON rest stream concatPartial) :=
    Next_eq lib (NewDockerJSON (pre ++ (m, some e) :: rest) stream concatPartial) _ rest
      (hloop [])
  refine ⟨hloop, hnext, ?_⟩
  intro n
  simp only [nextTimes, hnext]

/-- C7 on two partial lines followed by the end of the stream and then, once
the reader has more to give, a complete line: the first call returns the end
of the stream, and the second the complete line alone. -/
theorem Next_upstream_error_witness :
    ((∀ acc, nextLoop sampleLib (ascii "all") true acc
        ([record recAbc, record recAbc] ++ (rawRecord [], some "EOF") :: [record recAbcNL]) =
      some ((rawRecord [], some (Error.upstream "EOF")), [record recAbcNL])) ∧
    (NewDockerJSON ([record recAbc, record recAbc] ++
        (rawRecord [], some "EOF") :: [record recAbcNL]) (ascii "all") true).Next sampleLib =
      some ((rawRecord [], some (Error.upstream "EOF")),
        NewDockerJSON [record recAbcNL] (ascii "all") true) ∧
    (∀ n, nextTimes sampleLib (n + 1)
        (NewDockerJSON ([record recAbc, record recAbc] ++
          (rawRecord [], some "EOF") :: [record recAbcNL]) (ascii "all") true) =
      (nextTimes sampleLib n (NewDockerJSON [record recAbcNL] (ascii "all") true)).map
        (fun t => ((rawRecord [], some (Error.upstream "EOF")) :: t.1, t.2)))) ∧
    (nextTimes sampleLib 2
        (NewDockerJSON ([record recAbc, record recAbc] ++
          (rawRecord [], some "EOF") :: [record recAbcNL]) (ascii "all") true)).map
        (fun t => t.1.map (fun r => (r.1.Content, r.2))) =
      some [([], some (Error.upstream "EOF")), (ascii "abc\n", none)] :=
  ⟨Next_upstream_error sampleLib (ascii "all") true [record recAbc, record recAbc]
    (rawRecord []) "EOF" [record recAbcNL] (by decide), by decide⟩

/-- A record parsed without error: the parsed content is its payload. -/
theorem sniff_ok_content (lib : Lib Time) (r : Message Time)
    (h : (parseSelected lib r).2 = none) :
    (sniff lib r).err = none ∧ (sniff lib r).message.Content = payloadOf lib r := by
  rw [parseSelected_err] at h
  rcases sniff_cases lib r with ⟨-, hc, -⟩ | ⟨hne, -⟩
  · exact ⟨h, hc⟩
  · exact absurd h hne

/-- Concatenating the payloads group by group or record by record gives the
same bytes. -/
theorem flatten_groups (lib : Lib Time) (groups : List (List (Message Time))) :
    (groups.map (fun g => (g.map (payloadOf lib)).flatten)).flatten =
      (groups.flatten.map (payloadOf lib)).flatten := by
  induction groups with
  | nil => rfl
  | cons g gs ih => simp [ih]

/-- The calls to `Next` over a run of records that all parse, up to the end
of the stream: each returned content is the concatenation of the payloads of
one group of successive records, and the groups make up the run. -/
theorem readUntilError_groups (lib : Lib Time) (cp : Bool) (eofm : Message Time) (e : String)
    (rest : List (Outcome Time)) (k : Nat) :
    ∀ (rs : List (Message Time)) (n : Nat), rs.length = k →
      (∀ r ∈ rs, (parseSelected lib r).2 = none) →
      (cp = true → ∀ r, rs.getLast? = some r → (sniff lib r).isPartial = false) →
      rs.length < n →
      ∃ (msgs : List (Message Time)) (groups : List (List (Message Time))),
        readUntilError lib n
            (NewDockerJSON (rs.map record ++ (eofm, some e) :: rest) (ascii "all") cp) =
          (msgs.map (fun m => (m, none)) ++ [(eofm, some (Error.upstream e))],
            NewDockerJSON rest (ascii "all") cp) ∧
        groups.flatten = rs ∧ (∀ g ∈ groups, g ≠ []) ∧
        msgs.map (fun m => m.Content) =
          groups.map (fun g => (g.map (payloadOf lib)).flatten) := by
  induction k using Nat.strong_induction_on with
  | _ k ih =>
    intro rs n hk hok hlast hn
    obtain ⟨n, rfl⟩ : ∃ n2, n = n2 + 1 := ⟨n - 1, by omega⟩
    cases hrs : rs with
    | nil =>
      refine ⟨[], [], ?_, rfl, by simp, rfl⟩
      have hnext : (NewDockerJSON ((eofm, some e) :: rest) (ascii "all") cp).Next lib =
          some ((eofm, some (Error.upstream e)), NewDockerJSON rest (ascii "all") cp) :=
        Next_eq lib (NewDockerJSON ((eofm, some e) :: rest) (ascii "all") cp) _ rest
          (nextLoop_upstream lib _ _ _ _ _ _)
      simp [readUntilError, hnext]
    | cons r0 rs0 =>
      rw [← hrs]
      have hsplit := List.takeWhile_append_dropWhile
        (fun r => cp && (sniff lib r).isPartial) rs
      have hpre : ∀ x ∈ rs.takeWhile (fun r => cp && (sniff lib r).isPartial),
          (cp && (sniff lib x).isPartial) = true := by
        intro x hx
        have := List.mem_takeWhile_imp hx
        exact this
      cases hpost : rs.dropWhile (fun r => cp && (sniff lib r).isPartial) with
      | nil =>
        exfalso
        rw [List.dropWhile_eq_nil_iff] at hpost
        have hne : rs ≠ [] := by simp [hrs]
        have hl : rs.getLast? = some (rs.getLast hne) := List.getLast?_eq_getLast rs hne
        have hmem := List.mem_of_getLast?_eq_some hl
        have hp := hpost _ hmem
        simp only [Bool.and_eq_true] at hp
        have := hlast hp.1 _ hl
        rw [this] at hp
        exact absurd hp.2 (by simp)
      | cons r rs2 =>
        rw [hpost] at hsplit
        have hr : (cp && (sniff lib r).isPartial) = false := by
          have := List.head?_dropWhile_not (fun r => cp && (sniff lib r).isPartial) rs
          rw [hpost] at this
          simpa using this
        clear hpost
        generalize rs.takeWhile (fun r => cp && (sniff lib r).isPartial) = pre at hsplit hpre
        subst hsplit
        obtain ⟨herr, hcontent⟩ := sniff_ok_content lib r (hok r (by simp))
        have habs : ∀ o ∈ pre.map record, absorbed lib (ascii "all") cp o = true := by
          intro o ho
          obtain ⟨x, hx, rfl⟩ := List.mem_map.mp ho
          have := hpre x hx
          simp only [Bool.and_eq_true] at this
          simp [absorbed, record, this.1, this.2]
        have hnot : absorbed lib (ascii "all") cp (r, none) = false := by
          simp only [absorbed, filteredOut_all, Bool.false_or]
          exact hr
        have hreader : (pre ++ r :: rs2).map record ++ (eofm, some e) :: rest =
            pre.map record ++ (r, none) :: (rs2.map record ++ (eofm, some e) :: rest) := by
          simp [record]
        have hnext : (NewDockerJSON ((pre ++ r :: rs2).map record ++ (eofm, some e) :: rest)
            (ascii "all") cp).Next lib =
            some (finished lib cp (accumulated lib (ascii "all") [] (pre.map record)) r,
              NewDockerJSON (rs2.map record ++ (eofm, some e) :: rest) (ascii "all") cp) := by
          apply Next_eq
          simp only [NewDockerJSON]
          rw [hreader, nextLoop_absorbed lib _ _ _ _ [] habs]
          exact nextLoop_finished lib _ _ _ r _ hnot
        have hlen : (pre ++ r :: rs2).length = pre.length + (rs2.length + 1) := by simp
        have hok2 : ∀ x ∈ rs2, (parseSelected lib x).2 = none :=
          fun x hx => hok x (by simp [hx])
        have hlast2 : cp = true → ∀ x, rs2.getLast? = some x →
            (sniff lib x).isPartial = false := by
          intro hcp x hx
          apply hlast hcp
          obtain ⟨ys, hys⟩ := List.getLast?_eq_some_iff.mp hx
          rw [List.getLast?_eq_some_iff]
          exact ⟨pre ++ r :: ys, by rw [hys]; simp⟩
        obtain ⟨msgs, groups, hrun, hg1, hg2, hg3⟩ :=
          ih rs2.length (by omega) rs2 n rfl hok2 hlast2 (by omega)
        have hcontents : pre.map (fun m => (sniff lib m).message.Content) =
            pre.map (payloadOf lib) := by
          apply List.map_congr_left
          intro x hx
          exact (sniff_ok_content lib x (hok x (by simp [hx]))).2
        have hmsg : (finished lib cp (accumulated lib (ascii "all") [] (pre.map record))
            r).1.Content = ((pre ++ [r]).map (payloadOf lib)).flatten := by
          simp only [finished, accumulated_all, hcontents, hcontent, List.nil_append,
            List.map_append, List.flatten_append, List.map_cons, List.map_nil]
          cases hcp : cp with
          | true => simp
          | false =>
            have hnil : pre = [] := by
              rw [List.eq_nil_iff_forall_not_mem]
              intro x hx
              have := hpre x hx
              rw [hcp] at this
              simp at this
            simp [hnil]
        have hfin : finished lib cp (accumulated lib (ascii "all") [] (pre.map record)) r =
            ((finished lib cp (accumulated lib (ascii "all") [] (pre.map record)) r).1,
              none) := by
          simp [finished, herr]
        rw [hfin] at hnext
        refine ⟨(finished lib cp (accumulated lib (ascii "all") [] (pre.map record)) r).1 :: msgs,
          (pre ++ [r]) :: groups, ?_, ?_, ?_, ?_⟩
        · simp only [readUntilError, hnext, hrun]
          simp
        · simp [hg1]
        · intro g hg
          rcases List.mem_cons.mp hg with rfl | hg
          · simp
          · exact hg2 g hg
        · simp only [List.map_cons, hmsg, hg3]

/-- C8: with the filter `all` and any value of `concatPartial`, on a finite
run of records that all parse, followed by the end of the stream, and whose
last record is not flagged partial when `concatPartial` is set, calling `Next`
until the end of the stream returns messages whose contents are the
concatenated payloads of successive groups of records that make up the run
in read order; so the contents, concatenated in the order returned, are the
payloads of all records concatenated in read order. -/
theorem readUntilError_contents (lib : Lib Time) (concatPartial : Bool)
    (rs : List (Message Time)) (eofm : Message Time) (e : String)
    (rest : List (Outcome Time)) (n : Nat)
    (hok : ∀ r ∈ rs, (parseSelected lib r).2 = none)
    (hlast : concatPartial = true →
      ∀ r, rs.getLast? = some r → (sniff lib r).isPartial = false)
    (hn : rs.length < n) :
    ∃ (msgs : List (Message Time)) (groups : List (List (Message Time))),
      readUntilError lib n
          (NewDockerJSON (rs.map record ++ (eofm, some e) :: rest) (ascii "all")
            concatPartial) =
        (msgs.map (fun m => (m, none)) ++ [(eofm, some (Error.upstream e))],
          NewDockerJSON rest (ascii "all") concatPartial) ∧
      groups.flatten = rs ∧ (∀ g ∈ groups, g ≠ []) ∧
      msgs.map (fun m => m.Content) =
        groups.map (fun g => (g.map (payloadOf lib)).flatten) ∧
      (msgs.map (fun m => m.Content)).flatten = (rs.map (payloadOf lib)).flatten := by
  obtain ⟨msgs, groups, h1, h2, h3, h4⟩ :=
    readUntilError_groups lib concatPartial eofm e rest rs.length rs n rfl hok hlast hn
  refine ⟨msgs, groups, h1, h2, h3, h4, ?_⟩
  rw [h4, flatten_groups, h2]

/-- C8 on a partial line, a complete line and a CRI line followed by the end
of the stream, read with `concatPartial`: two messages are returned before
the end of the stream, the first one with the two logs joined. -/
theorem readUntilError_contents_witness :
    (∃ (msgs : List (Message SampleTime)) (groups : List (List (Message SampleTime))),
      readUntilError sampleLib 4
          (NewDockerJSON ([recAbc, recAbcNL, recHelloWorld].map record ++
            (rawRecord [], some "EOF") :: []) (ascii "all") true) =
        (msgs.map (fun m => (m, none)) ++ [(rawRecord [], some (Error.upstream "EOF"))],
          NewDockerJSON [] (ascii "all") true) ∧
      groups.flatten = [recAbc, recAbcNL, recHelloWorld] ∧ (∀ g ∈ groups, g ≠ []) ∧
      msgs.map (fun m => m.Content) =
        groups.map (fun g => (g.map (payloadOf sampleLib)).flatten) ∧
      (msgs.map (fun m => m.Content)).flatten =
        ([recAbc, recAbcNL, recHelloWorld].map (payloadOf sampleLib)).flatten) ∧
    (readUntilError sampleLib 4
        (NewDockerJSON ([recAbc, recAbcNL, recHelloWorld].map record ++
          (rawRecord [], some "EOF") :: []) (ascii "all") true)).1.map
        (fun r => (r.1.Content, r.2)) =
      [(ascii "abcabc\n", none), (ascii "hello world", none),
        ([], some (Error.upstream "EOF"))] :=
  ⟨readUntilError_contents sampleLib true [recAbc, recAbcNL, recHelloWorld] (rawRecord [])
      "EOF" [] 4 (by decide)
      (by
        intro _ r hr
        have hr2 : recHelloWorld = r := by simpa using hr
        subst hr2
        decide)
      (by decide),
    by decide⟩

end Loop

/-! ## Further properties of the parsers -/

section ParserErrors

variable {Time : Type}

/-- A string holds two separators or more exactly when it is made of two
stretches without separator, each followed by a separator, and a rest. -/
theorem two_le_count_iff (sep : Byte) (s : GoString) :
    2 ≤ s.count sep ↔
      ∃ a b c : GoString, sep ∉ a ∧ sep ∉ b ∧ s = a ++ sep :: (b ++ sep :: c) := by
  constructor
  · intro h
    obtain ⟨m, hm⟩ := indexByte_isSome sep s (by omega)
    obtain ⟨h1, h2, h3⟩ := indexByte_eq_some sep s m hm
    obtain ⟨k, hk⟩ := indexByte_isSome sep (s.drop (m + 1)) (by omega)
    obtain ⟨g1, g2, -⟩ := indexByte_eq_some sep (s.drop (m + 1)) k hk
    refine ⟨s.take m, (s.drop (m + 1)).take k, (s.drop (m + 1)).drop (k + 1), h2, g2, ?_⟩
    rw [← g1]
    exact h1
  · rintro ⟨a, b, c, -, -, rfl⟩
    simp only [List.count_append, List.count_cons_self]
    omega

/-- C11 fails as stated, in both directions: a line whose three fields are
separated by tabs has three whitespace-delimited fields and gets the format
error, and a line with two spaces between its two fields has two
whitespace-delimited fields and is parsed without error. -/
theorem parseCRILog_whitespace_fields_differ :
    ((wsFields recTabs.Content).length = 3 ∧
      (parseCRILog sampleLib recTabs crioZero).err = some Error.invalidCRI) ∧
    ((wsFields recTwoSpaces.Content).length = 2 ∧
      (parseCRILog sampleLib recTwoSpaces crioZero).err = none ∧
      (parseCRILog sampleLib recTwoSpaces crioZero).line.Stream = [] ∧
      (parseCRILog sampleLib recTwoSpaces crioZero).message.Content = ascii "hello") := by
  decide

/-- C11, amended: `parseCRILog` returns the format error exactly when the
content is not made of a field without a space, one space, a second field
without a space, one space, and a rest; the fields may be empty and may hold
tabs. -/
theorem parseCRILog_invalid_iff_shape (lib : Lib Time) (message : Message Time)
    (msg : crioLog Time) :
    (parseCRILog lib message msg).err = some Error.invalidCRI ↔
      ¬ ∃ a b c : GoString, SP ∉ a ∧ SP ∉ b ∧ message.Content = a ++ SP :: (b ++ SP :: c) := by
  rw [← two_le_count_iff]
  have hlen : (splitN SP 3 message.Content).length < 3 ↔ ¬ 2 ≤ message.Content.count SP := by
    rw [length_splitN]
    omega
  rw [← hlen]
  unfold parseCRILog
  by_cases h : (splitN SP 3 message.Content).length < 3
  · simp [h]
  · simp only [h, if_false, iff_false]
    cases lib.timeParse ((splitN SP 3 message.Content).getD 0 []) <;> simp

/-- C12: `parseCRILog` returns the flag `isPartial` false on every input; so
in the loop of `Next`, for every filter, every value of `concatPartial` and
every accumulated content, a record that goes to the CRI parser is either
discarded by the stream filter, the accumulated content staying as it is, or
ends the call. -/
theorem parseCRILog_never_partial (lib : Lib Time) :
    (∀ (message : Message Time) (msg : crioLog Time),
      (parseCRILog lib message msg).isPartial = false) ∧
    (∀ (stream : GoString) (concatPartial : Bool) (acc : GoString) (r : Message Time)
        (rest : List (Outcome Time)), r.Content.head? ≠ some LBRACE →
      nextLoop lib stream concatPartial acc ((r, none) :: rest) =
        if filteredOut stream (sniff lib r) then nextLoop lib stream concatPartial acc rest
        else some (finished lib concatPartial acc r, rest)) := by
  refine ⟨fun message msg => parseCRILog_isPartial lib message msg, ?_⟩
  intro stream cp acc r rest hb
  have hp : (sniff lib r).isPartial = false := by
    rw [(sniff_cri lib r hb).2.1]
    exact parseCRILog_isPartial lib _ _
  by_cases hf : filteredOut stream (sniff lib r) = true
  · have habs : absorbed lib stream cp (r, none) = true := by simp [absorbed, hf]
    rw [nextLoop_absorbed_cons lib stream cp acc _ rest habs]
    simp [accumulated, hf]
  · have habs : absorbed lib stream cp (r, none) = false := by simp [absorbed, hf, hp]
    rw [nextLoop_finished lib stream cp acc r rest habs]
    simp [hf]

/-- C13: when the content decodes without error into the three strings and
the time string parses, `parseDockerJSONLog` returns no error and a message
whose content is the decoded log, whose stream field is the decoded stream
and whose timestamp is the parsed time, whatever the timestamp of the record
was. -/
theorem parseDockerJSONLog_fields (lib : Lib Time) (message : Message Time) (msg : dockerLog)
    (d : dockerLog) (t : Time) (hdec : lib.jsonDecode message.Content msg = (d, none))
    (htime : lib.timeParse d.Timestamp = Except.ok t) :
    (parseDockerJSONLog lib message msg).err = none ∧
    (parseDockerJSONLog lib message msg).message.Content = d.Log ∧
    (parseDockerJSONLog lib message msg).message.Fields.get? (ascii "stream") =
      some (Value.str d.Stream) ∧
    (parseDockerJSONLog lib message msg).message.Ts = t ∧
    (parseDockerJSONLog lib message msg).line = d := by
  unfold parseDockerJSONLog
  rw [hdec]
  simp only [htime]
  simp [Message.AddFields, MapStr.Update, MapStr.get?_put]

/-- C13 on the line `{"log":"abc\n","stream":"stdout","time":…}`: the content
is `abc` with its newline, the stream is `stdout`, and the flag is false. -/
theorem parseDockerJSONLog_fields_witness :
    ((parseDockerJSONLog sampleLib recAbcNL {}).err = none ∧
      (parseDockerJSONLog sampleLib recAbcNL {}).message.Content = ascii "abc\n" ∧
      (parseDockerJSONLog sampleLib recAbcNL {}).message.Fields.get? (ascii "stream") =
        some (Value.str (ascii "stdout")) ∧
      (parseDockerJSONLog sampleLib recAbcNL {}).message.Ts =
        ⟨2017, 9, 12, 22, 32, 21, 212861448, 0⟩ ∧
      (parseDockerJSONLog sampleLib recAbcNL {}).line =
        { Timestamp := ascii "2017-09-12T22:32:21.212861448Z", Log := ascii "abc\n",
          Stream := ascii "stdout" }) ∧
    (parseDockerJSONLog sampleLib recAbcNL {}).isPartial = false :=
  ⟨parseDockerJSONLog_fields sampleLib recAbcNL {}
      { Timestamp := ascii "2017-09-12T22:32:21.212861448Z", Log := ascii "abc\n",
        Stream := ascii "stdout" }
      ⟨2017, 9, 12, 22, 32, 21, 212861448, 0⟩ (by decide) rfl,
    by decide⟩

/-- C19: whenever `parseCRILog` or `parseDockerJSONLog` returns an error,
which is then the format error, the decode error or a timestamp error, the
returned message is the message that was passed in, content, fields and
timestamp included, and the flag `isPartial` is false. -/
theorem parser_error_keeps_message (lib : Lib Time) (message : Message Time) :
    (∀ msg : crioLog Time, (parseCRILog lib message msg).err ≠ none →
      (parseCRILog lib message msg).message = message ∧
      (parseCRILog lib message msg).isPartial = false ∧
      ((parseCRILog lib message msg).err = some Error.invalidCRI ∨
        ∃ e, (parseCRILog lib message msg).err = some (Error.parsingCRITimestamp e))) ∧
    (∀ msg : dockerLog, (parseDockerJSONLog lib message msg).err ≠ none →
      (parseDockerJSONLog lib message msg).message = message ∧
      (parseDockerJSONLog lib message msg).isPartial = false ∧
      ((∃ e, (parseDockerJSONLog lib message msg).err = some (Error.decodingDockerJSON e)) ∨
        ∃ e, (parseDockerJSONLog lib message msg).err =
          some (Error.parsingDockerTimestamp e))) := by
  constructor
  · intro msg h
    unfold parseCRILog at h ⊢
    by_cases hl : (splitN SP 3 message.Content).length < 3
    · simp [hl]
    · simp only [hl, if_false] at h ⊢
      cases ht : lib.timeParse ((splitN SP 3 message.Content).getD 0 []) with
      | error e => simp
      | ok t => rw [ht] at h; simp at h
  · intro msg h
    unfold parseDockerJSONLog at h ⊢
    rcases hd : lib.jsonDecode message.Content msg with ⟨d, _ | e⟩
    · rw [hd] at h
      simp only at h ⊢
      cases ht : lib.timeParse d.Timestamp with
      | error e => simp
      | ok ts => rw [ht] at h; simp at h
    · simp

/-- C14 fails as stated: the well-formed object `{"log":"abc\n","stream":"stdout"}`,
in which the field `time` is absent, fails with the timestamp error and not
with the decode error, and the well-formed object
`{"stream":"stdout","time":…}`, in which the field `log` is absent, is parsed
without error, with an empty content. -/
theorem parseDockerJSONLog_absent_field :
    (readObject recNoTime.Content =
        some [(ascii "log", JVal.str (ascii "abc\n")), (ascii "stream", JVal.str (ascii "stdout"))] ∧
      (parseDockerJSONLog sampleLib recNoTime {}).err =
        some (Error.parsingDockerTimestamp "parsing time: cannot parse as RFC3339")) ∧
    (readObject recNoLog.Content =
        some [(ascii "stream", JVal.str (ascii "stdout")),
          (ascii "time", JVal.str (ascii "2017-09-12T22:32:21.212861448Z"))] ∧
      (parseDockerJSONLog sampleLib recNoLog {}).err = none ∧
      (parseDockerJSONLog sampleLib recNoLog {}).message.Content = []) := by
  decide

/-- C14, amended: `parseDockerJSONLog` fails with the decode error exactly
when the JSON decoder returns an error on the content.  When the decoder
returns none, as it does on a well-formed object in which a field is absent
and left empty, the result is decided by the time string that was decoded:
the timestamp error when that string does not parse as a time, and otherwise
success, with the decoded log as content. -/
theorem parseDockerJSONLog_error_kind (lib : Lib Time) (message : Message Time)
    (msg d : dockerLog) (oe : Option LibError)
    (hdec : lib.jsonDecode message.Content msg = (d, oe)) :
    ((∃ e, (parseDockerJSONLog lib message msg).err = some (Error.decodingDockerJSON e)) ↔
      oe ≠ none) ∧
    (oe = none →
      (∀ e, lib.timeParse d.Timestamp = Except.error e →
        (parseDockerJSONLog lib message msg).err = some (Error.parsingDockerTimestamp e)) ∧
      (∀ t, lib.timeParse d.Timestamp = Except.ok t →
        (parseDockerJSONLog lib message msg).err = none ∧
        (parseDockerJSONLog lib message msg).message.Content = d.Log)) := by
  unfold parseDockerJSONLog
  rw [hdec]
  cases oe with
  | some e0 => simp
  | none =>
    simp only [ne_eq, not_true_eq_false, iff_false, not_exists, forall_true_left]
    cases ht : lib.timeParse d.Timestamp with
    | error e => simp
    | ok t => simp

/-- C14, amended, on the object `{"log":"abc\n","stream":"stdout"}`, which
the decoder takes without error, leaving the time string empty: the call
fails with the timestamp error and not with the decode error. -/
theorem parseDockerJSONLog_error_kind_witness :
    (((∃ e, (parseDockerJSONLog sampleLib recNoTime {}).err =
        some (Error.decodingDockerJSON e)) ↔ (none : Option LibError) ≠ none) ∧
    ((none : Option LibError) = none →
      (∀ e, sampleLib.timeParse
          ({ Timestamp := [], Log := ascii "abc\n", Stream := ascii "stdout" } :
            dockerLog).Timestamp = Except.error e →
        (parseDockerJSONLog sampleLib recNoTime {}).err =
          some (Error.parsingDockerTimestamp e)) ∧
      (∀ t, sampleLib.timeParse
          ({ Timestamp := [], Log := ascii "abc\n", Stream := ascii "stdout" } :
            dockerLog).Timestamp = Except.ok t →
        (parseDockerJSONLog sampleLib recNoTime {}).err = none ∧
        (parseDockerJSONLog sampleLib recNoTime {}).message.Content =
          ({ Timestamp := [], Log := ascii "abc\n", Stream := ascii "stdout" } :
            dockerLog).Log))) ∧
    sampleLib.timeParse [] = Except.error "parsing time: cannot parse as RFC3339" :=
  ⟨parseDockerJSONLog_error_kind sampleLib recNoTime {}
      { Timestamp := [], Log := ascii "abc\n", Stream := ascii "stdout" } none (by decide),
    rfl⟩

end ParserErrors

/-! ## Parser errors in the loop of `Next` -/

section LoopErrors

variable {Time : Type}

/-- The loop on a record on which the selected parser fails, when the stream
filter lets the record through: the call returns the error, with the record
as read, its content preceded by the accumulated content. -/
theorem nextLoop_error_returned (lib : Lib Time) (stream : GoString) (cp : Bool)
    (acc : GoString) (r : Message Time) (rest : List (Outcome Time)) (e : Error)
    (herr : (sniff lib r).err = some e)
    (hf : filteredOut stream (sniff lib r) = false) :
    nextLoop lib stream cp acc ((r, none) :: rest) =
      some (({ r with Content := (if cp then acc else []) ++ r.Content }, some e), rest) := by
  rcases sniff_cases lib r with ⟨hok, -⟩ | ⟨-, hmsg, hp, -⟩
  · rw [hok] at herr
    simp at herr
  · have habs : absorbed lib stream cp (r, none) = false := by simp [absorbed, hf, hp]
    rw [nextLoop_finished lib stream cp acc r rest habs, finished, hmsg, herr]

/-- The loop on a record that the stream filter discards: it goes on with
the accumulated content as it is. -/
theorem nextLoop_filtered (lib : Lib Time) (stream : GoString) (cp : Bool)
    (acc : GoString) (r : Message Time) (rest : List (Outcome Time))
    (hf : filteredOut stream (sniff lib r) = true) :
    nextLoop lib stream cp acc ((r, none) :: rest) = nextLoop lib stream cp acc rest := by
  have habs : absorbed lib stream cp (r, none) = true := by simp [absorbed, hf]
  rw [nextLoop_absorbed_cons lib stream cp acc _ rest habs]
  simp [accumulated, hf]

/-- C15 fails as stated: under the filter `stdout`, on a reader that gives a
line starting with an opening brace that is not JSON and then a valid line,
the call to `Next` that reads the malformed line returns the second line
without error, and the decode error is returned to nobody. -/
theorem Next_drops_decode_error :
    recBadJson.Content.head? = some LBRACE ∧
    (parseDockerJSONLog sampleLib recBadJson {}).err =
      some (Error.decodingDockerJSON "invalid character in JSON input") ∧
    (NewDockerJSON [record recBadJson, record recAbcNL] (ascii "stdout") false).Next sampleLib =
      some (((parseDockerJSONLog sampleLib recAbcNL {}).message, none),
        NewDockerJSON [] (ascii "stdout") false) ∧
    (NewDockerJSON [record recBadJson, record recAbcNL] (ascii "stdout") true).Next sampleLib =
      some (((parseDockerJSONLog sampleLib recAbcNL {}).message, none),
        NewDockerJSON [] (ascii "stdout") true) := by
  decide

/-- C15, amended: when the record read has a content that starts with an
opening brace and on which the JSON decoder fails, then for every value of
`concatPartial` and every content accumulated so far in the call: under the
filter `all`, or when the decoder left the filter's tag in the stream field,
the call returns the decode error, with a message that is the record as read
except that, when `concatPartial` is set, its content is preceded by the
accumulated content; under another filter, `stdout` or `stderr` in
particular, the record is discarded by the stream filter and the loop goes on
to the next outcome with the accumulated content as it is. -/
theorem nextLoop_decode_error (lib : Lib Time) (stream : GoString) (concatPartial : Bool)
    (acc : GoString) (r : Message Time) (rest : List (Outcome Time)) (e : LibError)
    (hb : r.Content.head? = some LBRACE)
    (hdec : (lib.jsonDecode r.Content {}).2 = some e) :
    (stream = ascii "all" ∨ stream = (lib.jsonDecode r.Content {}).1.Stream →
      nextLoop lib stream concatPartial acc ((r, none) :: rest) =
        some (({ r with Content := (if concatPartial then acc else []) ++ r.Content },
          some (Error.decodingDockerJSON e)), rest)) ∧
    (stream ≠ ascii "all" → stream ≠ [] → stream ≠ (lib.jsonDecode r.Content {}).1.Stream →
      nextLoop lib stream concatPartial acc ((r, none) :: rest) =
        nextLoop lib stream concatPartial acc rest) := by
  obtain ⟨-, -, h3, h4, h5⟩ := sniff_docker lib r hb
  have hparse : (parseDockerJSONLog lib r {}).err = some (Error.decodingDockerJSON e) ∧
      (parseDockerJSONLog lib r {}).line = (lib.jsonDecode r.Content {}).1 := by
    unfold parseDockerJSONLog
    rcases hd : lib.jsonDecode r.Content {} with ⟨d, _ | e2⟩
    · rw [hd] at hdec
      simp at hdec
    · rw [hd] at hdec
      simp only [Option.some.injEq] at hdec
      simp [hdec]
  rw [hparse.1] at h3
  rw [hparse.2] at h4
  constructor
  · intro hs
    apply nextLoop_error_returned lib stream concatPartial acc r rest _ h3
    simp only [filteredOut, h4, h5]
    rcases hs with hs | hs
    · simp [hs]
    · simp [← hs]
  · intro h1 h2 h3
    apply nextLoop_filtered
    simp [filteredOut, h4, h5, h1, h2, h3]

/-- C15, amended, on the line `{not json`: under the filter `all`, after the
content `abc` was accumulated, the decode error is returned with the content
`abc{not json`, and under the filter `stdout` the line is passed over. -/
theorem nextLoop_decode_error_witness :
    ((ascii "all" = ascii "all" ∨
        ascii "all" = (sampleLib.jsonDecode recBadJson.Content {}).1.Stream →
      nextLoop sampleLib (ascii "all") true (ascii "abc") ((recBadJson, none) :: []) =
        some (({ recBadJson with
            Content := (if true = true then ascii "abc" else []) ++ recBadJson.Content },
          some (Error.decodingDockerJSON "invalid character in JSON input")), [])) ∧
    (ascii "all" ≠ ascii "all" → ascii "all" ≠ [] →
      ascii "all" ≠ (sampleLib.jsonDecode recBadJson.Content {}).1.Stream →
      nextLoop sampleLib (ascii "all") true (ascii "abc") ((recBadJson, none) :: []) =
        nextLoop sampleLib (ascii "all") true (ascii "abc") [])) ∧
    ((ascii "stdout" = ascii "all" ∨
        ascii "stdout" = (sampleLib.jsonDecode recBadJson.Content {}).1.Stream →
      nextLoop sampleLib (ascii "stdout") false [] ((recBadJson, none) :: [record recAbcNL]) =
        some (({ recBadJson with
            Content := (if false = true then [] else []) ++ recBadJson.Content },
          some (Error.decodingDockerJSON "invalid character in JSON input")),
          [record recAbcNL])) ∧
    (ascii "stdout" ≠ ascii "all" → ascii "stdout" ≠ [] →
      ascii "stdout" ≠ (sampleLib.jsonDecode recBadJson.Content {}).1.Stream →
      nextLoop sampleLib (ascii "stdout") false [] ((recBadJson, none) :: [record recAbcNL]) =
        nextLoop sampleLib (ascii "stdout") false [] [record recAbcNL])) ∧
    (if true = true then ascii "abc" else []) ++ recBadJson.Content = ascii "abc\x7bnot json" :=
  ⟨nextLoop_decode_error sampleLib (ascii "all") true (ascii "abc") recBadJson []
      "invalid character in JSON input" (by decide) (by decide),
    nextLoop_decode_error sampleLib (ascii "stdout") false [] recBadJson [record recAbcNL]
      "invalid character in JSON input" (by decide) (by decide),
    by decide⟩

/-- C16: for every filter, every value of `concatPartial` and every
accumulated content, on a record on which the selected parser fails exactly
one of two things happens in the loop of `Next`: the stream filter discards
the record and the loop goes on with the accumulated content as it is, or the
call returns at once that parser error, together with the record as read,
its content preceded by the accumulated content; under the filter `all` it is
the latter. -/
theorem nextLoop_parser_error (lib : Lib Time) (stream : GoString) (concatPartial : Bool)
    (acc : GoString) (r : Message Time) (rest : List (Outcome Time)) (e : Error)
    (herr : (parseSelected lib r).2 = some e) :
    (filteredOut stream (sniff lib r) = true →
      nextLoop lib stream concatPartial acc ((r, none) :: rest) =
        nextLoop lib stream concatPartial acc rest) ∧
    (filteredOut stream (sniff lib r) = false →
      nextLoop lib stream concatPartial acc ((r, none) :: rest) =
        some (({ r with Content := (if concatPartial then acc else []) ++ r.Content },
          some e), rest)) ∧
    (stream = ascii "all" → filteredOut stream (sniff lib r) = false) ∧
    (sniff lib r).isPartial = false := by
  rw [parseSelected_err] at herr
  refine ⟨nextLoop_filtered lib stream concatPartial acc r rest,
    nextLoop_error_returned lib stream concatPartial acc r rest e herr, ?_, ?_⟩
  · intro hs
    rw [hs]
    exact filteredOut_all _
  · rcases sniff_cases lib r with ⟨hok, -⟩ | ⟨-, -, hp, -⟩
    · rw [hok] at herr
      simp at herr
    · exact hp

/-- C16 on the line whose time is not a timestamp, read under the filter
`all` after the content `abc` was accumulated. -/
theorem nextLoop_parser_error_witness :
    (filteredOut (ascii "all") (sniff sampleLib recBadTime) = true →
      nextLoop sampleLib (ascii "all") true (ascii "abc")
          ((recBadTime, none) :: [record recAbcNL]) =
        nextLoop sampleLib (ascii "all") true (ascii "abc") [record recAbcNL]) ∧
    (filteredOut (ascii "all") (sniff sampleLib recBadTime) = false →
      nextLoop sampleLib (ascii "all") true (ascii "abc")
          ((recBadTime, none) :: [record recAbcNL]) =
        some (({ recBadTime with
            Content := (if true = true then ascii "abc" else []) ++ recBadTime.Content },
          some (Error.parsingDockerTimestamp "parsing time: cannot parse as RFC3339")),
          [record recAbcNL])) ∧
    (ascii "all" = ascii "all" →
      filteredOut (ascii "all") (sniff sampleLib recBadTime) = false) ∧
    (sniff sampleLib recBadTime).isPartial = false :=
  nextLoop_parser_error sampleLib (ascii "all") true (ascii "abc") recBadTime
    [record recAbcNL] (Error.parsingDockerTimestamp "parsing time: cannot parse as RFC3339")
    (by decide)

/-- C20: with `concatPartial` and the filter `all`, when the reader's next
records are `k` valid Docker JSON lines flagged partial, for `k ≥ 1` and for
`k = 0` as well, followed by a record on which the selected parser fails, the
call to `Next` reads exactly these records and returns that parser error
together with the failing record as read, its content preceded by the
concatenation of the `k` decoded logs. -/
theorem Next_concat_then_error (lib : Lib Time) (p : DockerJSON Time)
    (parts : List (Message Time)) (bad : Message Time) (rest : List (Outcome Time))
    (e : Error) (hstream : p.stream = ascii "all") (hcp : p.concatPartial = true)
    (hreader : p.reader = parts.map record ++ record bad :: rest)
    (hparts : ∀ m ∈ parts, m.Content.head? = some LBRACE ∧
      (parseDockerJSONLog lib m {}).err = none ∧
      (parseDockerJSONLog lib m {}).isPartial = true)
    (hbad : (parseSelected lib bad).2 = some e) :
    p.Next lib =
      some (({ bad with
          Content := (parts.map (fun m => (lib.jsonDecode m.Content {}).1.Log)).flatten ++
            bad.Content }, some e),
        { p with reader := rest }) := by
  have habs : ∀ o ∈ parts.map record, absorbed lib p.stream p.concatPartial o = true := by
    intro o ho
    obtain ⟨m, hm, rfl⟩ := List.mem_map.mp ho
    obtain ⟨h1, -, h3⟩ := hparts m hm
    simp [absorbed, record, hcp, (sniff_docker lib m h1).2.1, h3]
  have hcontents : (parts.map (fun m => (sniff lib m).message.Content)) =
      (parts.map (fun m => (lib.jsonDecode m.Content {}).1.Log)) := by
    apply List.map_congr_left
    intro m hm
    obtain ⟨h1, h2, -⟩ := hparts m hm
    obtain ⟨-, ⟨ts, -, hmsg⟩, -, -⟩ := parseDockerJSONLog_ok lib m {} h2
    rw [(sniff_docker lib m h1).1, hmsg]
  rw [parseSelected_err] at hbad
  apply Next_eq
  rw [hreader, nextLoop_absorbed lib p.stream p.concatPartial _ _ [] habs, record,
    nextLoop_error_returned lib p.stream p.concatPartial _ bad rest e hbad
      (by rw [hstream]; exact filteredOut_all _)]
  rw [hstream, accumulated_all, hcontents]
  simp [hcp]

/-- C20 on two partial lines with log `abc` followed by the line whose time
is not a timestamp: the timestamp error comes back with the content `abcabc`
followed by the whole failing line. -/
theorem Next_concat_then_error_witness :
    (NewDockerJSON [record recAbc, record recAbc, record recBadTime, record recAbcNL]
        (ascii "all") true).Next sampleLib =
      some (({ recBadTime with
          Content := ([recAbc, recAbc].map
              (fun m => (sampleLib.jsonDecode m.Content {}).1.Log)).flatten ++
            recBadTime.Content },
          some (Error.parsingDockerTimestamp "parsing time: cannot parse as RFC3339")),
        { NewDockerJSON [record recAbc, record recAbc, record recBadTime, record recAbcNL]
            (ascii "all") true with reader := [record recAbcNL] }) ∧
    ([recAbc, recAbc].map (fun m => (sampleLib.jsonDecode m.Content {}).1.Log)).flatten ++
        recBadTime.Content =
      ascii "abcabc" ++ recBadTime.Content :=
  ⟨Next_concat_then_error sampleLib
      (NewDockerJSON [record recAbc, record recAbc, record recBadTime, record recAbcNL]
        (ascii "all") true)
      [recAbc, recAbc] recBadTime [record recAbcNL]
      (Error.parsingDockerTimestamp "parsing time: cannot parse as RFC3339")
      rfl rfl rfl (by decide) (by decide),
    by decide⟩

end LoopErrors

/-! ## The accumulator as instance state -/

section Accumulator

variable {Time : Type}

/-- The loop of the specification and the loop of the code return the same
pair and leave the same outcomes, as long as the accumulator is empty when
reassembly is disabled. -/
theorem specLoop_eq_nextLoop (lib : Lib Time) (f : GoString) (cp : Bool)
    (outs : List (Outcome Time)) (acc : GoString) (hacc : cp = false → acc = []) :
    specLoop lib f cp acc outs =
      (nextLoop lib f cp acc outs).map (fun r => (r.1, [], r.2)) := by
  induction outs generalizing acc with
  | nil => simp [specLoop, nextLoop]
  | cons o os ih =>
    obtain ⟨m, e⟩ := o
    cases e with
    | some e => simp [specLoop, nextLoop]
    | none =>
      by_cases hf : filteredOut f (sniff lib m) = true
      · have hcond : f ≠ ascii "all" ∧ f ≠ (sniff lib m).dockerLine.Stream ∧
            f ≠ (sniff lib m).crioLine.Stream := by
          simpa [filteredOut, and_assoc] using hf
        rw [specLoop, if_pos hcond, nextLoop_filtered lib f cp acc m os hf]
        exact ih acc hacc
      · have hcond : ¬ (f ≠ ascii "all" ∧ f ≠ (sniff lib m).dockerLine.Stream ∧
            f ≠ (sniff lib m).crioLine.Stream) := by
          intro hc
          apply hf
          simpa [filteredOut, and_assoc] using hc
        have hf2 : filteredOut f (sniff lib m) = false := by simpa using hf
        by_cases hp : cp = true ∧ (sniff lib m).isPartial = true
        · have habs : absorbed lib f cp (m, none) = true := by
            simp [absorbed, hp.1, hp.2]
          have hacc2 : accumulated lib f acc [(m, none)] =
              acc ++ (sniff lib m).message.Content := by
            simp [accumulated, hf2]
          rw [specLoop, if_neg hcond, if_pos hp,
            nextLoop_absorbed_cons lib f cp acc _ os habs, hacc2]
          exact ih _ (fun h => by rw [hp.1] at h; simp at h)
        · have hp2 : (cp && (sniff lib m).isPartial) = false := by
            simpa using hp
          have habs : absorbed lib f cp (m, none) = false := by
            simp only [absorbed, hf2, Bool.false_or]
            exact hp2
          rw [specLoop, if_neg hcond, if_neg hp, nextLoop_finished lib f cp acc m os habs]
          cases acc with
          | nil => simp [finished]
          | cons a as =>
            have hcp : cp = true := by
              cases cp with
              | true => rfl
              | false => simpa using hacc rfl
            simp [finished, hcp]

/-- The operation of the specification on an empty accumulator is the method
`Next`, and it leaves the accumulator empty. -/
theorem specNext_eq_Next (lib : Lib Time) (reader : List (Outcome Time))
    (f : GoString) (cp : Bool) :
    (StreamDecoder.mk reader f cp []).Next lib =
      ((NewDockerJSON reader f cp).Next lib).map
        (fun t => (t.1, StreamDecoder.mk t.2.reader f cp [])) := by
  simp only [StreamDecoder.Next, DockerJSON.Next, NewDockerJSON,
    specLoop_eq_nextLoop lib f cp reader [] (fun _ => rfl), Option.map_map]
  rfl

/-- The decoder left by `Next` has the filter and the option it had. -/
theorem Next_config (lib : Lib Time) (reader : List (Outcome Time)) (f : GoString) (cp : Bool)
    (res : Message Time × Option Error) (q : DockerJSON Time)
    (h : (NewDockerJSON reader f cp).Next lib = some (res, q)) :
    q = NewDockerJSON q.reader f cp := by
  obtain ⟨h1, h2, -⟩ := Next_reader_suffix lib _ q res h
  obtain ⟨r, s, c⟩ := q
  simp only [NewDockerJSON] at h1 h2 ⊢
  rw [h1, h2]

/-- C17: the results of the calls to `Next` are those of a decoder with an
accumulator kept in the instance, empty at first and cleared whenever `Next`
returns: after any number of calls the returned pairs are the same, the
reader is left at the same place and the accumulator is empty.  And the
calls that follow `n` earlier calls, whatever these returned, return what a
new decoder with the same filter and option returns on the outcomes that are
left. -/
theorem specTimes_eq_nextTimes (lib : Lib Time) (f : GoString) (cp : Bool) :
    (∀ (n : Nat) (reader : List (Outcome Time)),
      specTimes lib n (StreamDecoder.mk reader f cp []) =
        (nextTimes lib n (NewDockerJSON reader f cp)).map
          (fun t => (t.1, StreamDecoder.mk t.2.reader f cp []))) ∧
    (∀ (n k : Nat) (reader : List (Outcome Time))
        (results : List (Message Time × Option Error)) (q : DockerJSON Time),
      nextTimes lib n (NewDockerJSON reader f cp) = some (results, q) →
      nextTimes lib (n + k) (NewDockerJSON reader f cp) =
        (nextTimes lib k (NewDockerJSON q.reader f cp)).map
          (fun t => (results ++ t.1, t.2))) := by
  constructor
  · intro n
    induction n with
    | zero => intro reader; simp [specTimes, nextTimes, NewDockerJSON]
    | succ n ih =>
      intro reader
      simp only [specTimes, nextTimes, specNext_eq_Next]
      cases hnext : (NewDockerJSON reader f cp).Next lib with
      | none => simp
      | some val =>
        obtain ⟨res, q⟩ := val
        have hq := Next_config lib reader f cp res q hnext
        simp only [Option.map_some']
        rw [ih q.reader, ← hq]
        cases nextTimes lib n q <;> simp
  · intro n
    induction n with
    | zero =>
      intro k reader results q h
      simp only [nextTimes, Option.some.injEq, Prod.mk.injEq] at h
      rw [← h.1, ← h.2]
      simp [NewDockerJSON]
    | succ n ih =>
      intro k reader results q h
      have hnk : n + 1 + k = (n + k) + 1 := by omega
      rw [hnk]
      simp only [nextTimes] at h ⊢
      cases hnext : (NewDockerJSON reader f cp).Next lib with
      | none => rw [hnext] at h; simp at h
      | some val =>
        obtain ⟨res, p2⟩ := val
        rw [hnext] at h
        simp only [Option.map_eq_some'] at h
        obtain ⟨⟨rs, q2⟩, hrec, hres⟩ := h
        simp only [Prod.mk.injEq] at hres
        have hp2 := Next_config lib reader f cp res p2 hnext
        rw [hp2] at hrec
        have := ih k p2.reader rs q2 hrec
        simp only
        rw [hp2, this, ← hres.1, ← hres.2]
        cases nextTimes lib k (NewDockerJSON q2.reader f cp) <;> simp

end Accumulator

/-! ## Records discarded by the stream filter -/

section Filtered

variable {Time : Type}

/-- The loop on the outcomes without the records that the filter discards:
the same pair is returned, and what is left is what the loop leaves on all
outcomes, without the records that the filter discards. -/
theorem nextLoop_dropFiltered (lib : Lib Time) (f : GoString) (cp : Bool)
    (outs : List (Outcome Time)) (acc : GoString) :
    nextLoop lib f cp acc (dropFiltered lib f outs) =
      (nextLoop lib f cp acc outs).map (fun r => (r.1, dropFiltered lib f r.2)) := by
  induction outs generalizing acc with
  | nil => simp [dropFiltered, nextLoop]
  | cons o os ih =>
    obtain ⟨m, e⟩ := o
    cases e with
    | some e =>
      have hd : dropFiltered lib f ((m, some e) :: os) = (m, some e) :: dropFiltered lib f os := by
        simp [dropFiltered]
      rw [hd, nextLoop_upstream, nextLoop_upstream]
      rfl
    | none =>
      by_cases hf : filteredOut f (sniff lib m) = true
      · have hd : dropFiltered lib f ((m, none) :: os) = dropFiltered lib f os := by
          simp [dropFiltered, hf]
        rw [hd, nextLoop_filtered lib f cp acc m os hf]
        exact ih acc
      · have hf2 : filteredOut f (sniff lib m) = false := by simpa using hf
        have hd : dropFiltered lib f ((m, none) :: os) = (m, none) :: dropFiltered lib f os := by
          simp [dropFiltered, hf2]
        rw [hd]
        cases habs : absorbed lib f cp (m, none) with
        | true =>
          rw [nextLoop_absorbed_cons lib f cp acc _ _ habs,
            nextLoop_absorbed_cons lib f cp acc _ _ habs]
          exact ih _
        | false =>
          rw [nextLoop_finished lib f cp acc m _ habs, nextLoop_finished lib f cp acc m _ habs]
          rfl

/-- The method `Next` on a decoder built from its three fields. -/
theorem Next_NewDockerJSON (lib : Lib Time) (outs : List (Outcome Time)) (f : GoString)
    (cp : Bool) :
    (NewDockerJSON outs f cp).Next lib =
      (nextLoop lib f cp [] outs).map (fun r => (r.1, NewDockerJSON r.2 f cp)) := by
  rfl

/-- Successive calls to `Next` on the outcomes without the records that the
filter discards return the same pairs. -/
theorem nextTimes_dropFiltered (lib : Lib Time) (f : GoString) (cp : Bool) (n : Nat)
    (outs : List (Outcome Time)) :
    (nextTimes lib n (NewDockerJSON (dropFiltered lib f outs) f cp)).map (fun t => t.1) =
      (nextTimes lib n (NewDockerJSON outs f cp)).map (fun t => t.1) := by
  induction n generalizing outs with
  | zero => simp [nextTimes]
  | succ n ih =>
    simp only [nextTimes, Next_NewDockerJSON, nextLoop_dropFiltered]
    cases nextLoop lib f cp [] outs with
    | none => simp
    | some val =>
      obtain ⟨res, rest⟩ := val
      simp only [Option.map_some', Option.map_map]
      have := ih rest
      cases h1 : nextTimes lib n (NewDockerJSON (dropFiltered lib f rest) f cp) with
      | none =>
        rw [h1] at this
        cases h2 : nextTimes lib n (NewDockerJSON rest f cp) with
        | none => simp
        | some v => rw [h2] at this; simp at this
      | some v1 =>
        rw [h1] at this
        cases h2 : nextTimes lib n (NewDockerJSON rest f cp) with
        | none => rw [h2] at this; simp at this
        | some v2 =>
          rw [h2] at this
          simp only [Option.map_some', Option.some.injEq] at this
          simp [this]

/-- Calling `Next` until it returns an error, on the outcomes without the
records that the filter discards, returns the same pairs. -/
theorem readUntilError_dropFiltered (lib : Lib Time) (f : GoString) (cp : Bool) (n : Nat)
    (outs : List (Outcome Time)) :
    (readUntilError lib n (NewDockerJSON (dropFiltered lib f outs) f cp)).1 =
      (readUntilError lib n (NewDockerJSON outs f cp)).1 := by
  induction n generalizing outs with
  | zero => simp [readUntilError]
  | succ n ih =>
    simp only [readUntilError, Next_NewDockerJSON, nextLoop_dropFiltered]
    cases nextLoop lib f cp [] outs with
    | none => simp
    | some val =>
      obtain ⟨⟨m, e⟩, rest⟩ := val
      cases e with
      | some e => simp
      | none =>
        simp only [Option.map_some']
        rw [ih rest]

/-- A record parsed without error is discarded by a filter other than `all`
and other than the empty tag exactly when its parsed stream tag is not the
filter's. -/
theorem filteredOut_iff_tag (lib : Lib Time) (f : GoString) (r : Message Time)
    (hall : f ≠ ascii "all") (hne : f ≠ []) (hok : (parseSelected lib r).2 = none) :
    filteredOut f (sniff lib r) = !decide (parsedTag lib r = some (Value.str f)) := by
  have htag : parsedTag lib r = (sniff lib r).message.Fields.get? (ascii "stream") := by
    rw [parsedTag, ← sniff_parseSelected]
  rw [parseSelected_err] at hok
  rcases sniff_cases lib r with ⟨-, -, tag, h1, h2⟩ | ⟨hne2, -⟩
  · rw [htag, h1]
    rcases h2 with ⟨g1, g2⟩ | ⟨g1, g2⟩
    · by_cases ht : tag = f
      · simp [filteredOut, g1, g2, ht]
      · have ht2 : f ≠ tag := fun h => ht h.symm
        simp [filteredOut, g1, g2, ht, ht2, hall, hne]
    · by_cases ht : tag = f
      · simp [filteredOut, g1, g2, ht]
      · have ht2 : f ≠ tag := fun h => ht h.symm
        simp [filteredOut, g1, g2, ht, ht2, hall, hne]
  · exact absurd hok hne2

/-- On records parsed without error, followed by outcomes that are not
records, removing what the filter discards is keeping the records whose
parsed stream tag is the filter's. -/
theorem dropFiltered_records (lib : Lib Time) (f : GoString) (rs : List (Message Time))
    (tail : List (Outcome Time)) (hall : f ≠ ascii "all") (hne : f ≠ [])
    (hok : ∀ r ∈ rs, (parseSelected lib r).2 = none)
    (htail : ∀ o ∈ tail, o.2 ≠ none) :
    dropFiltered lib f (rs.map record ++ tail) =
      (rs.filter (fun r => decide (parsedTag lib r = some (Value.str f)))).map record ++
        tail := by
  induction rs with
  | nil =>
    simp only [List.map_nil, List.filter_nil, List.nil_append, dropFiltered]
    rw [List.filter_eq_self]
    intro o ho
    have := htail o ho
    cases h2 : o.2 with
    | none => exact absurd h2 this
    | some v => simp
  | cons r rs ih =>
    have ih2 := ih (fun x hx => hok x (by simp [hx]))
    have hr := filteredOut_iff_tag lib f r hall hne (hok r (by simp))
    simp only [dropFiltered] at ih2 ⊢
    simp only [List.map_cons, List.cons_append, List.filter_cons, record, Option.isNone_none,
      Bool.true_and, hr, Bool.not_not]
    by_cases ht : parsedTag lib r = some (Value.str f)
    · simp only [ht, decide_True, if_true, List.map_cons, List.cons_append, record]
      rw [← ih2]
    · simp only [ht, decide_False, if_false, Bool.false_eq_true]
      rw [← ih2]

/-- C18: for the filter `stdout` or `stderr`, any value of `concatPartial`
and any finite run of records that all parse, removing from the run every
record whose parsed stream tag is not the filter's does not change the pairs
of message and error returned by successive calls to `Next`, be it by `n`
calls on the run alone or by calls until the end of a stream made of the run
followed by an upstream error. -/
theorem Next_without_filtered_records (lib : Lib Time) (f : GoString)
    (concatPartial : Bool) (rs : List (Message Time))
    (hf : f = ascii "stdout" ∨ f = ascii "stderr")
    (hok : ∀ r ∈ rs, (parseSelected lib r).2 = none) :
    (∀ n, (nextTimes lib n (NewDockerJSON
          ((rs.filter (fun r => decide (parsedTag lib r = some (Value.str f)))).map record)
          f concatPartial)).map (fun t => t.1) =
        (nextTimes lib n (NewDockerJSON (rs.map record) f concatPartial)).map (fun t => t.1)) ∧
    (∀ n (eofm : Message Time) (e : String),
      (readUntilError lib n (NewDockerJSON
          ((rs.filter (fun r => decide (parsedTag lib r = some (Value.str f)))).map record ++
            [(eofm, some e)]) f concatPartial)).1 =
        (readUntilError lib n (NewDockerJSON (rs.map record ++ [(eofm, some e)])
          f concatPartial)).1) := by
  have hall : f ≠ ascii "all" := by
    rcases hf with rfl | rfl <;> decide
  have hne : f ≠ [] := by
    rcases hf with rfl | rfl <;> decide
  constructor
  · intro n
    have hd := dropFiltered_records lib f rs [] hall hne hok (by simp)
    simp only [List.append_nil] at hd
    rw [← hd]
    exact nextTimes_dropFiltered lib f concatPartial n _
  · intro n eofm e
    have hd := dropFiltered_records lib f rs [(eofm, some e)] hall hne hok (by simp)
    rw [← hd]
    exact readUntilError_dropFiltered lib f concatPartial n _

/-- C18 on a `stderr` line between two partial `stdout` lines and a complete
one, read with `concatPartial` under the filter `stdout`: with and without
the `stderr` line the three `stdout` logs come back as one content. -/
theorem Next_without_filtered_records_witness :
    ((∀ n, (nextTimes sampleLib n (NewDockerJSON
          (([recAbc, recStderr, recAbc, recAbcNL].filter
            (fun r => decide (parsedTag sampleLib r = some (Value.str (ascii "stdout"))))).map
            record) (ascii "stdout") true)).map (fun t => t.1) =
        (nextTimes sampleLib n (NewDockerJSON
          ([recAbc, recStderr, recAbc, recAbcNL].map record) (ascii "stdout") true)).map
          (fun t => t.1)) ∧
    (∀ n (eofm : Message SampleTime) (e : String),
      (readUntilError sampleLib n (NewDockerJSON
          (([recAbc, recStderr, recAbc, recAbcNL].filter
            (fun r => decide (parsedTag sampleLib r = some (Value.str (ascii "stdout"))))).map
            record ++ [(eofm, some e)]) (ascii "stdout") true)).1 =
        (readUntilError sampleLib n (NewDockerJSON
          ([recAbc, recStderr, recAbc, recAbcNL].map record ++ [(eofm, some e)])
          (ascii "stdout") true)).1)) ∧
    [recAbc, recStderr, recAbc, recAbcNL].filter
        (fun r => decide (parsedTag sampleLib r = some (Value.str (ascii "stdout")))) =
      [recAbc, recAbc, recAbcNL] ∧
    (nextTimes sampleLib 1 (NewDockerJSON
        ([recAbc, recStderr, recAbc, recAbcNL].map record) (ascii "stdout") true)).map
        (fun t => t.1.map (fun r => (r.1.Content, r.2))) =
      some [(ascii "abcabcabc\n", none)] :=
  ⟨Next_without_filtered_records sampleLib (ascii "stdout") true
      [recAbc, recStderr, recAbc, recAbcNL] (Or.inl rfl) (by decide),
    by decide, by decide⟩

end Filtered

end DockerJSONReader
